import Mathlib

/-!
Verification of the Pegasus metadata core (`Tools/metadata_scanner.py`,
`Tools/metadata_writer.py`, `Tools/base.py`) against its specification.

Strings are modelled as `List Char` (`Str`); Python dicts as insertion-ordered
association lists with unique keys (`Dict`); Python values as the `Val` sum.
Each definition is a direct transcription of the named Python function.
-/

abbrev Str := List Char

/-- The set of characters Python's `str.strip()` / `str.isspace()` treats as
whitespace (ASCII whitespace, file/group/record/unit separators, NEL, NBSP and
the Unicode space/line/paragraph separators). -/
def pyIsWs (c : Char) : Bool :=
  c == ' ' || c == '\t' || c == '\n' || c == '\r' ||
  c == Char.ofNat 0x0b || c == Char.ofNat 0x0c ||
  (0x1c ≤ c.toNat && c.toNat ≤ 0x1f) || c.toNat == 0x85 || c.toNat == 0xa0 ||
  c.toNat == 0x1680 || (0x2000 ≤ c.toNat && c.toNat ≤ 0x200a) ||
  c.toNat == 0x2028 || c.toNat == 0x2029 || c.toNat == 0x202f ||
  c.toNat == 0x205f || c.toNat == 0x3000

/-- Python `str.lstrip()`. -/
def pyLStrip (s : Str) : Str := s.dropWhile pyIsWs

/-- Python `str.rstrip()`. -/
def pyRStrip (s : Str) : Str := (s.reverse.dropWhile pyIsWs).reverse

/-- Python `str.strip()`. -/
def pyStrip (s : Str) : Str := pyRStrip (pyLStrip s)

/-- Python `str.strip("\n")` / `str.rstrip("\n")` on an already newline-free
side: strips `'\n'` characters from both ends. -/
def pyStripNl (s : Str) : Str :=
  ((s.dropWhile (· == '\n')).reverse.dropWhile (· == '\n')).reverse

/-- Python `str.rstrip("\n")`. -/
def pyRStripNl (s : Str) : Str := (s.reverse.dropWhile (· == '\n')).reverse

/-- Python `str.lower()` (exact on ASCII, which covers every string compared
case-insensitively in this code base: the `"files:"` prefix tests). -/
def pyLower (s : Str) : Str := s.map Char.toLower

/-- Python `str.replace("-", "_")`. -/
def hyphenToUnderscore (s : Str) : Str :=
  s.map (fun c => if c = '-' then '_' else c)

/-- Python `str.split(sep)` for a one-character separator: all parts, empties
kept. -/
def splitOnChar (sep : Char) (s : Str) : List Str :=
  s.foldr
    (fun c acc =>
      match acc with
      | [] => [[c]]
      | p :: ps => if c = sep then [] :: (p :: ps) else (c :: p) :: ps)
    [[]]

/-- Python `line.partition(":")` restricted to what the parser uses: the parts
before and after the first occurrence of `sep`, or `none` when absent. -/
def splitFirst (sep : Char) : Str → Option (Str × Str)
  | [] => none
  | c :: cs =>
    if c = sep then some ([], cs)
    else (splitFirst sep cs).map (fun p => (c :: p.1, p.2))

/-- `"\n".join(lines)`. -/
def joinNl (ls : List Str) : Str := (ls.intersperse ['\n']).flatten

/-- The characters Python `str.splitlines()` breaks on. -/
def pyIsLineBreak (c : Char) : Bool :=
  c == '\n' || c == '\r' || c == Char.ofNat 0x0b || c == Char.ofNat 0x0c ||
  c.toNat == 0x1c || c.toNat == 0x1d || c.toNat == 0x1e ||
  c.toNat == 0x85 || c.toNat == 0x2028 || c.toNat == 0x2029

/-- Python `str.splitlines()`: `acc` is the current line accumulated in
reverse; a `"\r\n"` pair counts as a single break; a trailing break adds no
empty final line. -/
def pySplitlinesGo (acc : Str) : Str → List Str
  | [] => if acc.isEmpty then [] else [acc.reverse]
  | '\r' :: '\n' :: rest => acc.reverse :: pySplitlinesGo [] rest
  | c :: rest =>
    if pyIsLineBreak c then acc.reverse :: pySplitlinesGo [] rest
    else pySplitlinesGo (c :: acc) rest

/-- Python `str.splitlines()`. `""` yields `[]`. -/
def pySplitlines (s : Str) : List Str :=
  match s with
  | [] => []
  | _ => pySplitlinesGo [] s

/-- Python values occurring in the header / game dicts of this code base:
strings, lists of strings, the nested `assets` dict, and `None`. -/
inductive Val where
  | s (v : Str)
  | l (v : List Str)
  | assets (v : List (Str × Str))
  | none
deriving BEq, DecidableEq, Repr

/-- A Python dict with string keys: insertion-ordered association list with
unique keys (uniqueness is maintained by `dset`). -/
abbrev Dict := List (Str × Val)

/-- `d.get(k)`: `Option.none` when the key is absent (a present `None` value
is `some Val.none`, matching Python's `k in d` distinction). -/
def dget (d : Dict) (k : Str) : Option Val :=
  (d.find? (fun kv => kv.1 = k)).map (·.2)

/-- `d[k] = v`: update in place, preserving insertion order, else append. -/
def dset (d : Dict) (k : Str) (v : Val) : Dict :=
  if d.any (fun kv => kv.1 = k) then
    d.map (fun kv => if kv.1 = k then (k, v) else kv)
  else d ++ [(k, v)]

/-- `d.pop(k, None)`. -/
def dpop (d : Dict) (k : Str) : Dict := d.filter (fun kv => ¬ kv.1 = k)

/-- Python truthiness of an optional dict entry: absent, `None`, `""`, `[]`
and `{}` are falsy. -/
def truthy : Option Val → Bool
  | Option.none => false
  | some (.s v) => ¬ v.isEmpty
  | some (.l v) => ¬ v.isEmpty
  | some (.assets v) => ¬ v.isEmpty
  | some .none => false

/-- The list stored under `k`, defaulting to `[]` (`d.get(k, [])` where every
reachable value under `k` is a list). -/
def dgetList (d : Dict) (k : Str) : List Str :=
  match dget d k with
  | some (.l r) => r
  | _ => []

/-- Comma-split, strip each part, drop empties — the idiom used for
`extension` values throughout the code base. -/
def csvSplit (v : Str) : List Str :=
  ((splitOnChar ',' v).map pyStrip).filter (fun p => ¬ p.isEmpty)

/-!
## `Tools/metadata_scanner.py` — the parser
-/

/-- `_finalize_multiline_prop(target, key, buf, is_header)`: commit an
accumulated multi-line property into `target`. Transcribed branch by branch;
note that the buffered lines keep whatever leading indentation they had. -/
def finalize_multiline_prop (target : Dict) (key : Option Str) (buf : List Str)
    (is_header : Bool) : Dict :=
  match key with
  | Option.none => target
  | some key =>
    let text := pyRStripNl (joinNl buf)
    if is_header then
      if key = ("launch".toList) then
        let txt := if ("launch:".toList).isPrefixOf text then
            pyLStrip (text.drop 7) else text
        dset target ("launch_block".toList) (.s txt)
      else if key = ("sort-by".toList) then
        dset target ("default_sort_by".toList) (.s text)
      else if key = ("ignore-files".toList) then
        let items := ((buf.drop 1).map pyStrip).filter (fun l => ¬ l.isEmpty)
        dset target ("ignore_files".toList) (.l items)
      else if key = ("extension".toList) ∨ key = ("extensions".toList) then
        let lines := if buf.length > 1 then buf.drop 1 else []
        let exts := (lines.map csvSplit).flatten
        dset target ("extensions".toList) (.l exts)
      else
        dset target (hyphenToUnderscore key) (.s text)
    else
      if key = ("launch".toList) then
        let txt := if ("launch:".toList).isPrefixOf text then
            pyLStrip (text.drop 7) else text
        dset target ("launch_block".toList) (.s txt)
      else if key = ("sort-by".toList) then
        dset target ("sort_by".toList) (.s text)
      else if key = ("description".toList) then
        let d := if ("description:".toList).isPrefixOf text then
            pyLStrip (text.drop 12) else text
        dset target ("description".toList) (.s d)
      else if key = ("files".toList) then
        let lines := buf.filterMap (fun ln =>
          let s := pyStrip ln
          if s.isEmpty then Option.none
          else if ("files:".toList).isPrefixOf (pyLower s) then Option.none
          else some s)
        dset target ("roms".toList) (.l (dgetList target ("roms".toList) ++ lines))
      else
        dset target (hyphenToUnderscore key) (.s text)

/-- `_ensure_default_assets(game_dict)`. -/
def ensure_default_assets (g : Dict) : Dict :=
  if truthy (dget g ("assets".toList)) then g
  else
    let pick := if truthy (dget g ("game".toList)) then dget g ("game".toList)
      else dget g ("title".toList)
    if ¬ truthy pick then g
    else
      match pick with
      | some (.s t) =>
        dset g ("assets".toList) (.assets
          [ (("box_front".toList), ("media/".toList ++ t ++ "/boxfront.png".toList))
          , (("logo".toList), ("media/".toList ++ t ++ "/logo.png".toList))
          , (("video".toList), ("media/".toList ++ t ++ "/video.mp4".toList)) ])
      | _ => g

/-- The game-finalization block of `parse_pegasus_metadata` (run at the next
`game:` line and at end of input): filter `roms`, reconcile `file`/`roms`,
default the assets. -/
def finalize_game (g : Dict) : Dict :=
  let roms0 := dgetList g ("roms".toList)
  let roms1 := roms0.filter (fun r =>
    ¬ (pyStrip r).isEmpty ∧
    ¬ ("files:".toList).isPrefixOf (pyLower (pyStrip r)))
  let g :=
    match dget g ("file".toList) with
    | some (.s f) =>
      if ("files:".toList).isPrefixOf (pyLower (pyStrip f)) then
        dpop g ("file".toList)
      else g
    | _ => g
  let roms2 :=
    if roms1.isEmpty then
      match dget g ("file".toList) with
      | some (.s f) => if ¬ (pyStrip f).isEmpty then [f] else roms1
      | _ => roms1
    else roms1
  let g := dset g ("roms".toList) (.l roms2)
  let g :=
    if ¬ roms2.isEmpty ∧ ¬ truthy (dget g ("file".toList)) then
      dset g ("file".toList) (.s (roms2.headD []))
    else g
  ensure_default_assets g

/-- The mutable loop state of `parse_pegasus_metadata`. -/
structure PState where
  header : Dict
  games : List Dict
  current_game : Option Dict
  in_header : Bool
  current_key : Option Str
  buf : List Str
deriving Repr

/-- `flush_multiline()`. -/
def pflush (st : PState) : PState :=
  if st.in_header then
    { st with
      header := finalize_multiline_prop st.header st.current_key st.buf true,
      current_key := Option.none, buf := [] }
  else
    match st.current_game with
    | some cg =>
      { st with
        current_game := some (finalize_multiline_prop cg st.current_key st.buf false),
        current_key := Option.none, buf := [] }
    | Option.none => { st with current_key := Option.none, buf := [] }

/-- The multi-line property keys. -/
def isMultilineKey (key : Str) : Bool :=
  key = ("launch".toList) ∨ key = ("description".toList) ∨
  key = ("ignore-files".toList) ∨ key = ("extension".toList) ∨
  key = ("extensions".toList) ∨ key = ("files".toList)

/-- The body of the `for raw_line in f` loop of `parse_pegasus_metadata`,
acting on one physical line (already without its trailing newline). -/
def pstep (st : PState) (line : Str) : PState :=
  if (pyStrip line).isEmpty ∨ ("#".toList).isPrefixOf (pyLStrip line) then st
  else if ¬ (" ".toList).isPrefixOf line then
    let st := pflush st
    match splitFirst ':' line with
    | Option.none => st
    | some (k, v) =>
      let key := pyStrip k
      let value := pyStrip v
      if key = ("game".toList) then
        let st := { st with in_header := false }
        let games2 :=
          (match st.current_game with
          | some cg => st.games ++ [finalize_game cg]
          | Option.none => st.games)
        { st with
          games := games2,
          current_game := some [(("game".toList), Val.s value)],
          current_key := Option.none, buf := [] }
      else if key = ("file".toList) then
        if st.in_header then st
        else
          match st.current_game with
          | Option.none => st
          | some cg =>
            { st with
              current_game := some (dset cg ("roms".toList)
                (.l (dgetList cg ("roms".toList) ++ [value]))) }
      else if isMultilineKey key then
        if key = ("files".toList) then
          { st with current_key := some key, buf := [] }
        else if (key = ("extension".toList) ∨ key = ("extensions".toList)) ∧
            st.in_header then
          if ¬ value.isEmpty then
            { st with
              header := dset st.header ("extensions".toList) (.l (csvSplit value)),
              current_key := Option.none, buf := [] }
          else
            { st with current_key := some key, buf := [key ++ (":".toList)] }
        else
          { st with
            current_key := some key,
            buf := [if ¬ value.isEmpty then key ++ (": ".toList) ++ value
                    else key ++ (":".toList)] }
      else
        if st.in_header then
          if key = ("sort-by".toList) then
            { st with header := dset st.header ("default_sort_by".toList) (.s value) }
          else
            { st with header := dset st.header (hyphenToUnderscore key) (.s value) }
        else
          match st.current_game with
          | Option.none => st
          | some cg =>
            if key = ("sort-by".toList) then
              { st with current_game := some (dset cg ("sort_by".toList) (.s value)) }
            else
              { st with current_game := some (dset cg (hyphenToUnderscore key) (.s value)) }
  else
    -- indented continuation line: Python appends `line.strip("\n")`, which is
    -- a no-op after the read loop's `rstrip("\n")` — indentation is kept
    if st.current_key.isSome then { st with buf := st.buf ++ [line] }
    else st

/-- `parse_pegasus_metadata(path)`, over the file's physical lines (each
without its trailing newline). Returns `(header, games)`. -/
def parse_pegasus_metadata (lines : List Str) : Dict × List Dict :=
  let st0 : PState := ⟨[], [], Option.none, true, Option.none, []⟩
  let st := lines.foldl pstep st0
  let st := pflush st
  let games :=
    match st.current_game with
    | some cg => st.games ++ [finalize_game cg]
    | Option.none => st.games
  let header :=
    if (dget st.header ("default_sort_by".toList)).isNone then
      dset st.header ("default_sort_by".toList) Val.none
    else st.header
  (header, games)

/-!
## `Tools/metadata_writer.py` — the serializer

Each `f.write(... + "\n")` is modelled as one emitted line (without its
newline). This matches the file the Python code writes, read back as physical
lines, whenever the interpolated values contain no newline characters — which
holds for every value `parse_pegasus_metadata` produces (values come from
single physical lines, or are split with `splitlines` before being written).
-/

/-- Render an interpolated dict value (`f"... {v} ..."`). Only string values
are ever interpolated in this code base. -/
def fstr : Option Val → Str
  | some (.s v) => v
  | _ => []

/-- A list-valued field fetched with `game.get(k) or []`: a Python `str` here
would be treated as a sequence of one-character strings, which is how `len`,
indexing and iteration would see it. -/
def dgetSeq (d : Dict) (k : Str) : List Str :=
  match dget d k with
  | some (.l r) => r
  | some (.s v) => v.map (fun c => [c])
  | _ => []

/-- `PurePosixPath(p).parts`: optional root (`"/"`, or `"//"` for exactly two
leading slashes), then the non-empty, non-`"."` components. -/
def posixParts (p : Str) : List Str :=
  let comps := (splitOnChar '/' p).filter (fun c => ¬ c.isEmpty ∧ ¬ c = (".".toList))
  if ("//".toList).isPrefixOf p ∧ ¬ ("///".toList).isPrefixOf p then
    ("//".toList) :: comps
  else if ("/".toList).isPrefixOf p then ("/".toList) :: comps
  else comps

/-- `str(PurePosixPath(x))` given its `parts`. -/
def posixFromParts : List Str → Str
  | [] => (".".toList)
  | r :: rest =>
    if r = ("/".toList) ∨ r = ("//".toList) then r ++ joinSlash rest
    else joinSlash (r :: rest)
where joinSlash (ls : List Str) : Str := (ls.intersperse ("/".toList)).flatten

/-- `PurePosixPath(a) / b / c` as `parts`: a later absolute segment resets the
path. -/
def posixJoinParts (a : List Str) (seg : Str) : List Str :=
  if ("/".toList).isPrefixOf seg then posixParts seg
  else a ++ (splitOnChar '/' seg).filter (fun c => ¬ c.isEmpty ∧ ¬ c = (".".toList))

/-- `_is_multi_disc(game)`: a list-valued `roms` or `files` entry with more
than one element. -/
def is_multi_disc (g : Dict) : Bool :=
  (match dget g ("roms".toList) with
   | some (.l r) => decide (1 < r.length)
   | _ => false) ||
  (match dget g ("files".toList) with
   | some (.l r) => decide (1 < r.length)
   | _ => false)

/-- `_infer_media_base_from_multifiles(game)`. -/
def infer_media_base_from_multifiles (g : Dict) : Option Str :=
  let lst :=
    (match dget g ("roms".toList) with
    | some (.l r) => if 1 < r.length then some r else Option.none
    | _ => Option.none)
  let lst :=
    (match lst with
    | some r => some r
    | Option.none =>
      match dget g ("files".toList) with
      | some (.l r) => if 1 < r.length then some r else Option.none
      | _ => Option.none)
  match lst with
  | Option.none => Option.none
  | some r =>
    let first := r.headD []
    if (pyStrip first).isEmpty then Option.none
    else
      let parts := posixParts (pyStrip first)
      if 2 ≤ parts.length then some (parts.headD []) else Option.none

/-- `_collect_assets(game)`: the nested `assets` dict first, then legacy flat
`assets.<kind>` keys in dict insertion order, without overriding. -/
def collect_assets (g : Dict) : List (Str × Str) :=
  let base :=
    (match dget g ("assets".toList) with
    | some (.assets a) =>
      a.filterMap (fun kv =>
        if ¬ (pyStrip kv.2).isEmpty then some (kv.1, pyStrip kv.2) else Option.none)
    | _ => [])
  g.foldl (fun (acc : List (Str × Str)) (kv : Str × Val) =>
    match kv.2 with
    | .s v =>
      if ("assets.".toList).isPrefixOf kv.1 ∧ ¬ (pyStrip v).isEmpty then
        -- `k.split(".", 1)[1]`: the first `"."` of an `"assets."`-prefixed key
        -- is at index 6, so this is the key without its first 7 characters
        let sub := pyStrip (kv.1.drop 7)
        if ¬ sub.isEmpty ∧ acc.all (fun e => ¬ e.1 = sub) then
          acc ++ [(sub, pyStrip v)]
        else acc
      else acc
    | _ => acc) base

/-- `_rewrite_media_path_keep_filename(v, media_base)`. -/
def rewrite_media_path_keep_filename (v : Str) (media_base : Str) : Str :=
  let parts := posixParts v
  if 2 ≤ parts.length ∧ parts.headD [] = ("media".toList) then
    posixFromParts (posixJoinParts (posixJoinParts ["media".toList] media_base)
      (parts.getLastD []))
  else v

/-- `_emit_assets_lines(f, game)`. -/
def emit_assets_lines (g : Dict) : List Str :=
  if ¬ is_multi_disc g then []
  else
    let assets := collect_assets g
    let media_base := infer_media_base_from_multifiles g
    let assets :=
      (match media_base with
      | some b =>
        if assets.isEmpty then
          [ (("box_front".toList), ("media/".toList ++ b ++ "/boxFront.png".toList))
          , (("logo".toList), ("media/".toList ++ b ++ "/logo.png".toList))
          , (("video".toList), ("media/".toList ++ b ++ "/video.mp4".toList)) ]
        else assets
      | Option.none => assets)
    if assets.isEmpty then []
    else
      let assets :=
        (match media_base with
        | some b => assets.map (fun (kv : Str × Str) =>
            if ¬ (pyStrip kv.2).isEmpty then
              (kv.1, rewrite_media_path_keep_filename kv.2 b)
            else kv)
        | Option.none => assets)
      ([("box_front".toList), ("logo".toList), ("video".toList)]).filterMap
        (fun key =>
          match assets.find? (fun (kv : Str × Str) => kv.1 = key) with
          | some kv =>
            if ¬ (pyStrip kv.2).isEmpty then
              some (("assets.".toList) ++ key ++ (": ".toList) ++ kv.2)
            else Option.none
          | Option.none => Option.none)

/-- `_emit_launch_block(f, game)`: prefer the first non-blank string among
`launch_override` / `launch_block` / `launch`, falling back to a list-valued
`launch`. -/
def emit_launch_block (g : Dict) : List Str :=
  let fromKey : Str → Option Str := fun k =>
    match dget g k with
    | some (.s v) => if ¬ (pyStrip v).isEmpty then some (pyStripNl v) else Option.none
    | _ => Option.none
  let raw :=
    (match fromKey ("launch_override".toList) with
    | some r => some r
    | Option.none =>
      match fromKey ("launch_block".toList) with
      | some r => some r
      | Option.none =>
        match fromKey ("launch".toList) with
        | some r => some r
        | Option.none =>
          match dget g ("launch".toList) with
          | some (.l v) =>
            if ¬ v.isEmpty then some (pyStripNl (joinNl v)) else Option.none
          | _ => Option.none)
  match raw with
  | Option.none => []
  | some raw =>
    if raw.isEmpty then []
    else
      let lines := pySplitlines raw
      if lines.length = 1 then
        [("launch: ".toList) ++ pyRStrip (lines.headD [])]
      else
        ("launch:".toList) :: lines.map (fun l => ("  ".toList) ++ pyRStrip l)

/-- `_write_game(f, game)`. -/
def write_game (g : Dict) : List Str :=
  let titleOpt :=
    if truthy (dget g ("game".toList)) then dget g ("game".toList)
    else dget g ("title".toList)
  if ¬ truthy titleOpt then []
  else
    let roms := dgetSeq g ("roms".toList)
    ([("game: ".toList) ++ fstr titleOpt]
      ++ (if ¬ roms.isEmpty then
            if roms.length = 1 then [("file: ".toList) ++ roms.headD []]
            else ("files:".toList) :: roms.map (fun p => ("  ".toList) ++ p)
          else [])
      ++ (if truthy (dget g ("sort_by".toList)) then
            [("sort-by: ".toList) ++ fstr (dget g ("sort_by".toList))] else [])
      ++ (if truthy (dget g ("developer".toList)) then
            [("developer: ".toList) ++ fstr (dget g ("developer".toList))] else [])
      ++ emit_assets_lines g
      ++ (match dget g ("description".toList) with
          | some (.s d) =>
            if ¬ d.isEmpty then
              let lines := pySplitlines d
              if lines.length = 1 then [("description: ".toList) ++ lines.headD []]
              else ("description:".toList) :: lines.map (fun l => ("  ".toList) ++ l)
            else []
          | _ => [])
      ++ emit_launch_block g
      ++ [[]])

/-- `_write_header(f, header)`. -/
def write_header (h : Dict) : List Str :=
  (if truthy (dget h ("collection".toList)) then
    [("collection: ".toList) ++ fstr (dget h ("collection".toList))] else [])
  ++ (if truthy (dget h ("default_sort_by".toList)) then
    [("sort-by: ".toList) ++ fstr (dget h ("default_sort_by".toList))] else [])
  ++ (match dget h ("launch_block".toList) with
      | some (.s v) =>
        if ¬ v.isEmpty then
          let lines := pySplitlines v
          if lines.length = 1 then [("launch: ".toList) ++ lines.headD []]
          else ("launch:".toList) :: lines.map (fun l => ("  ".toList) ++ l)
        else []
      | _ => [])
  ++ (let ig := dgetSeq h ("ignore_files".toList)
      if ¬ ig.isEmpty then ("ignore-files:".toList) :: ig.map (fun p => ("  ".toList) ++ p)
      else [])
  ++ (let exts :=
        (match dget h ("extensions".toList) with
        | some (.s v) => csvSplit v
        | some (.l v) => v
        | _ => [])
      if ¬ exts.isEmpty then
        (("extension:".toList) :: exts.map (fun e => ("  ".toList) ++ e)) ++ [[]]
      else [])

/-- `dump_pegasus_metadata(path, header, games)`, as the emitted physical
lines. -/
def dump_pegasus_metadata (h : Dict) (games : List Dict) : List Str :=
  write_header h ++ (games.map write_game).flatten

/-!
## `Tools/base.py` — semantic normalization and the closure verifier
-/

/-- `unicodedata.normalize("NFKC", s)`. Modelled as the identity, which is
exact on ASCII text; every string this development evaluates `_clean_text` on
is ASCII. -/
def nfkc (s : Str) : Str := s

/-- `s.replace("\r\n", "\n").replace("\r", "\n")`. -/
def crlfToLf : Str → Str
  | [] => []
  | '\r' :: '\n' :: rest => '\n' :: crlfToLf rest
  | '\r' :: rest => '\n' :: crlfToLf rest
  | c :: rest => c :: crlfToLf rest

/-- `_clean_text(s)`: NFKC, drop zero-width characters, drop the Unicode
line/paragraph separators, normalize newlines, right-strip every line, strip
the whole. -/
def clean_text (s : Str) : Str :=
  let s := nfkc s
  let s := s.filter (fun c =>
    ¬ (c.toNat = 0x200B ∨ c.toNat = 0x200C ∨ c.toNat = 0x200D ∨ c.toNat = 0xFEFF))
  let s := s.filter (fun c => ¬ (c.toNat = 0x2028 ∨ c.toNat = 0x2029))
  let s := crlfToLf s
  pyStrip (joinNl ((splitOnChar '\n' s).map pyRStrip))

/-- `_normalize_header(h)`. -/
def normalize_header (h : Dict) : Dict :=
  let exts : Val :=
    (match dget h ("extensions".toList) with
    | Option.none => .l []
    | some .none => .l []
    | some (.s v) => .l (csvSplit v)
    | some v => v)
  let h2 := dset h ("extensions".toList) exts
  let ig : Val :=
    (match dget h2 ("ignore_files".toList) with
    | Option.none => .l []
    | some .none => .l []
    | some v => v)
  let h2 := dset h2 ("ignore_files".toList) ig
  match dget h2 ("launch_block".toList) with
  | some (.s v) =>
    if ¬ v.isEmpty then
      dset h2 ("launch_block".toList) (.s (joinNl ((pySplitlines v).map pyLStrip)))
    else h2
  | _ => h2

/-- Python `a < b` on strings: lexicographic by code point. -/
def strLt : Str → Str → Bool
  | [], [] => false
  | [], _ :: _ => true
  | _ :: _, [] => false
  | a :: xs, b :: ys =>
    if a.toNat < b.toNat then true
    else if b.toNat < a.toNat then false
    else strLt xs ys

/-- Insert into an ascending duplicate-free list, keeping it so. -/
def insertSortedUnique (x : Str) : List Str → List Str
  | [] => [x]
  | y :: ys =>
    if strLt x y then x :: y :: ys
    else if x = y then y :: ys
    else y :: insertSortedUnique x ys

/-- Python `sorted(set(xs))` for strings: the ascending duplicate-free list. -/
def sortedSet (xs : List Str) : List Str :=
  xs.foldl (fun acc x => insertSortedUnique x acc) []

/-- Is `v` one of Python's `(None, "", [])` — the exclusion test
`val not in (None, "", [])` used by `_normalize_game`. -/
def isNoneEmptyStrOrList (v : Val) : Bool :=
  v = Val.none ∨ v = Val.s [] ∨ v = Val.l []

/-- `_normalize_game(g)`. The source's first `roms`-cleaning loop is
immediately overwritten by the second and has no effect, so only the second is
transcribed. -/
def normalize_game (g : Dict) : Dict :=
  let norm : Dict :=
    [("game".toList), ("title".toList), ("sort_by".toList), ("developer".toList),
     ("year".toList)].foldl
      (fun acc k =>
        match dget g k with
        | Option.none => acc
        | some v => if isNoneEmptyStrOrList v then acc else dset acc k v) []
  let roms : List Str :=
    (match dget g ("roms".toList) with
    | some (.l v) => v
    | some (.s v) => if ¬ v.isEmpty then [v] else []
    | _ => [])
  let cleaned := roms.filterMap (fun r =>
    if r.isEmpty then Option.none
    else
      let s := clean_text (pyStrip r)
      if s.isEmpty then Option.none else some s)
  let norm := dset norm ("roms".toList) (.l (sortedSet cleaned))
  let norm :=
    (match dget g ("description".toList) with
    | some (.s d) =>
      if ¬ d.isEmpty then dset norm ("description".toList) (.s (clean_text d))
      else norm
    | _ => norm)
  let norm :=
    (match dget g ("launch_block".toList) with
    | some (.s v) =>
      if ¬ v.isEmpty then
        dset norm ("launch_block".toList) (.s (joinNl ((pySplitlines v).map pyLStrip)))
      else norm
    | _ => norm)
  match dget g ("core_override".toList) with
  | Option.none => norm
  | some v =>
    if isNoneEmptyStrOrList v then norm else dset norm ("core_override".toList) v

/-- `_game_key(g)`: `(title, first rom path)`. -/
def game_key (g : Dict) : Str × Str :=
  let name :=
    if truthy (dget g ("game".toList)) then fstr (dget g ("game".toList))
    else if truthy (dget g ("title".toList)) then fstr (dget g ("title".toList))
    else []
  let rom0 :=
    (match dget g ("roms".toList) with
    | some (.l r) => if ¬ r.isEmpty then r.headD [] else []
    | some (.s v) => if ¬ v.isEmpty then v else []
    | _ => [])
  (name, rom0)

/-- Strict lexicographic order on key pairs (Python tuple `<`). -/
def pairLt (a b : Str × Str) : Bool :=
  strLt a.1 b.1 || (a.1 = b.1 && strLt a.2 b.2)

/-- `sorted(gs, key=_game_key)` compares keys with `<`; an element goes before
another iff not (the other's key < its key). -/
def gameLe (a b : Dict) : Bool := ¬ pairLt (game_key b) (game_key a)

/-- Stable insertion: `x` goes after every existing element that is `le x`. -/
def insertStable (le : Dict → Dict → Bool) (x : Dict) : List Dict → List Dict
  | [] => [x]
  | y :: ys => if le y x then y :: insertStable le x ys else x :: y :: ys

/-- A stable sort (insertion sort) — extensionally equal to Python's stable
`sorted` for the total preorder `gameLe`. -/
def stableSort (le : Dict → Dict → Bool) (xs : List Dict) : List Dict :=
  xs.foldl (fun acc x => insertStable le x acc) []

/-- Python `==` on these dicts: equal as finite key → value maps. -/
def dictBeq (a b : Dict) : Bool :=
  a.all (fun kv => dget b kv.1 == some kv.2) &&
  b.all (fun kv => dget a kv.1 == some kv.2)

/-- Python `==` on lists of dicts. -/
def gamesBeq (a b : List Dict) : Bool :=
  a.length == b.length && (a.zip b).all (fun p => dictBeq p.1 p.2)

/-- `verify_closure(meta_path)`: parse, dump to a scratch file, re-parse, and
compare header and games after semantic normalization (games sorted by
`_game_key`). The scratch file round-trip is the identity on physical lines
for serializer output (each emitted line contains no newline), so the dumped
lines are fed straight back to the parser. -/
def verify_closure (lines : List Str) : Bool :=
  let p1 := parse_pegasus_metadata lines
  let out := dump_pegasus_metadata p1.1 p1.2
  let p2 := parse_pegasus_metadata out
  dictBeq (normalize_header p1.1) (normalize_header p2.1) &&
  gamesBeq (stableSort gameLe (p1.2.map normalize_game))
    (stableSort gameLe (p2.2.map normalize_game))

/-!
## `Tools/metadata_scanner.py` — launch normalizer
-/

/-- A character the regex class `[^/\s]` accepts. -/
def launchClassChar (c : Char) : Bool := ¬ c = '/' ∧ ¬ pyIsWs c

/-- The fixed literal tail of the core pattern. -/
def coreSuffix : Str := ("_libretro_android.so".toList)

/-- The fixed prefix of the core pattern. -/
def coresMarker : Str := ("/cores/".toList)

/-- The greedy split for `[^/\s]+_libretro_android\.so` against the maximal
class-character run `run`: the largest `m ≥ 1` such that the literal tail
follows the first `m` characters (the regex engine backtracks from the
longest `+`-match). -/
def greedySplit (run : Str) : Option Nat :=
  (List.range (run.length + 1)).reverse.find? (fun m =>
    decide (1 ≤ m) && coreSuffix.isPrefixOf (run.drop m))

/-- Try the pattern `([^/\s]+_libretro_android\.so)` at the position just
after a `"/cores/"` occurrence; returns the captured group. -/
def tryMatchCores (rest : Str) : Option Str :=
  match greedySplit (rest.takeWhile launchClassChar) with
  | some m => some ((rest.takeWhile launchClassChar).take m ++ coreSuffix)
  | Option.none => Option.none

/-- `re.search` for `/cores/([^/\s]+_libretro_android\.so)`: try each start
position left to right, returning the first full match's group. -/
def searchCores : Str → Option Str
  | [] => Option.none
  | c :: cs =>
    if coresMarker.isPrefixOf (c :: cs) then
      match tryMatchCores ((c :: cs).drop 7) with
      | some g => some g
      | Option.none => searchCores cs
    else searchCores cs

/-- `extract_libretro_core(launch_block)`. -/
def extract_libretro_core (launch_block : Str) : Option Str :=
  if launch_block.isEmpty then Option.none
  else searchCores launch_block

/-- `shlex`'s whitespace characters (`' \t\r\n'`). -/
def shlexWs (c : Char) : Bool := c = ' ' ∨ c = '\t' ∨ c = '\r' ∨ c = '\n'

/-- `shlex`'s quote characters (`'\'"'`). -/
def shlexQuote (c : Char) : Bool := c = '"' ∨ c = Char.ofNat 39

/-- The lexer state of `shlex.read_token` in non-posix mode with
`whitespace_split`: between tokens, inside an unquoted word, or inside a
quoted section opened by `q` (only possible at token start). -/
inductive ShlexState where
  | space
  | word
  | quoted (q : Char)

/-- `shlex.split(text, posix=False)` as `shlex.py`'s state machine: `acc` is
the current token in reverse. In a word, quote characters are ordinary
characters; a quoted token ends right at its closing quote; end of input
inside a quoted section raises `ValueError` (`Option.none`). -/
def shlexGo : ShlexState → Str → Str → Option (List Str)
  | .space, _, [] => some []
  | .word, acc, [] => some [acc.reverse]
  | .quoted _, _, [] => Option.none
  | .space, _, c :: cs =>
    if shlexWs c then shlexGo .space [] cs
    else if shlexQuote c then shlexGo (.quoted c) [c] cs
    else shlexGo .word [c] cs
  | .word, acc, c :: cs =>
    if shlexWs c then (shlexGo .space [] cs).map (fun ts => acc.reverse :: ts)
    else shlexGo .word (c :: acc) cs
  | .quoted q, acc, c :: cs =>
    if c = q then (shlexGo .space [] cs).map (fun ts => (q :: acc).reverse :: ts)
    else shlexGo (.quoted q) (c :: acc) cs

/-- `shlex.split(text, posix=False)`; `Option.none` is the `ValueError` on an
unbalanced quote. -/
def shlexSplitNonPosix (s : Str) : Option (List Str) :=
  shlexGo .space [] s

/-- `os.path.basename(t)` on Windows (`ntpath`): the part after the last
`'/'` or `'\'`. (Drive-letter splitting is omitted: a drive prefix is at most
one letter plus `':'`, so dropping it cannot change the only use made of the
basename here — the `"retroarch"` substring test.) -/
def ntBasename (t : Str) : Str :=
  (t.reverse.takeWhile (fun c => ¬ c = '/' ∧ ¬ c = '\\')).reverse

/-- Python `needle in hay` substring test. -/
def hasSub (needle : Str) : Str → Bool
  | [] => needle.isEmpty
  | c :: rest => needle.isPrefixOf (c :: rest) || hasSub needle rest

/-- The result dict of `normalize_launch_block`: optional fields model
optional dict keys. -/
structure LaunchInfo where
  raw : Str
  tokens : Option (List Str)
  emulator : Option Str
  binary : Option Str
  core : Option Str
  rom_arg_index : Option Nat
deriving DecidableEq, Repr

/-- `normalize_launch_block(launch_block)`: strip, tokenize (failure keeps
only `raw` and an empty token list), find a retroarch binary, extract the
core, locate the ROM placeholder token. -/
def normalize_launch_block (launch_block : Str) : LaunchInfo :=
  let text := pyStrip launch_block
  if text.isEmpty then
    ⟨text, Option.none, Option.none, Option.none, Option.none, Option.none⟩
  else
    match shlexSplitNonPosix text with
    | Option.none =>
      ⟨text, some [], Option.none, Option.none, Option.none, Option.none⟩
    | some tokens =>
      let binary := tokens.find? (fun t =>
        hasSub ("retroarch".toList) (pyLower (ntBasename t)))
      let emulator := binary.map (fun _ => ("retroarch".toList))
      let core := extract_libretro_core text
      let romIdx := tokens.findIdx? (fun t =>
        hasSub ("%ROM%".toList) t || hasSub ("%rom%".toList) t ||
        hasSub ("{file}".toList) t || hasSub ("%file%".toList) t)
      { raw := text, tokens := some tokens, emulator := emulator,
        binary := binary, core := core, rom_arg_index := romIdx }

/-!
## Shared dictionary lemmas
-/

theorem dget_dset_self (d : Dict) (k : Str) (v : Val) :
    dget (dset d k v) k = some v := by
  unfold dget dset
  by_cases ha : d.any (fun kv => kv.1 = k)
  · simp only [ha, if_true]
    rw [List.find?_map]
    have hp : ((fun kv : Str × Val => decide (kv.1 = k)) ∘
        fun kv => if kv.1 = k then (k, v) else kv) =
        (fun kv : Str × Val => decide (kv.1 = k)) := by
      funext kv
      by_cases h : kv.1 = k <;> simp [h]
    rw [hp]
    have hs : (d.find? (fun kv : Str × Val => decide (kv.1 = k))).isSome := by
      rw [List.find?_isSome]
      exact List.any_eq_true.mp ha
    obtain ⟨e, hpe⟩ := Option.isSome_iff_exists.mp hs
    rw [hpe]
    have h1 : e.1 = k := by simpa using List.find?_some hpe
    simp [h1]
  · rw [Bool.not_eq_true] at ha
    simp only [ha, Bool.false_eq_true, if_false]
    rw [List.find?_append]
    have h0 : d.find? (fun kv : Str × Val => decide (kv.1 = k)) = Option.none := by
      rw [List.find?_eq_none]
      intro x hx
      simpa using List.any_eq_false.mp ha x hx
    simp [h0, List.find?]

theorem dget_dset_ne (d : Dict) (k k' : Str) (v : Val) (h : ¬ k' = k) :
    dget (dset d k v) k' = dget d k' := by
  unfold dget dset
  by_cases ha : d.any (fun kv => kv.1 = k)
  · simp only [ha, if_true]
    rw [List.find?_map]
    have hp : ((fun kv : Str × Val => decide (kv.1 = k')) ∘
        fun kv => if kv.1 = k then (k, v) else kv) =
        (fun kv : Str × Val => decide (kv.1 = k')) := by
      funext kv
      by_cases hk : kv.1 = k
      · have h1 : ¬ (k = k') := fun hh => h hh.symm
        have h2 : ¬ (kv.1 = k') := fun hh => h1 (hk.symm.trans hh)
        simp [hk, h1, h2]
      · simp [hk]
    rw [hp]
    cases hf : d.find? (fun kv : Str × Val => decide (kv.1 = k')) with
    | none => rfl
    | some e =>
      have h1 : e.1 = k' := by simpa using List.find?_some hf
      have h2 : ¬ e.1 = k := fun hh => h (h1.symm.trans hh)
      simp [h2]
  · rw [Bool.not_eq_true] at ha
    simp only [ha, Bool.false_eq_true, if_false]
    rw [List.find?_append]
    cases hf : d.find? (fun kv : Str × Val => decide (kv.1 = k')) with
    | none =>
      have : ¬ (k = k') := fun hh => h hh.symm
      simp [List.find?, this]
    | some e => simp

/-!
## Claim-specific inputs
-/

/-- The §8 scenario source text: header `collection: DC`, `extension: chd,
cdi`, one game `Shenmue` with a single file and a sort key. -/
def scenarioLines : List Str :=
  [("collection: DC".toList), ("extension: chd, cdi".toList), ([]),
   ("game: Shenmue".toList), ("file: shenmue.cdi".toList), ("sort-by: 001".toList)]

/-- The launch command of the core-extraction property. -/
def c3LaunchString : Str :=
  ("retroarch -L \"/path/cores/mednafen_psx_hw_libretro_android.so\" \"%ROM%\"".toList)

/-- A source text whose only game has a two-line indented description block. -/
def c6DescriptionLines : List Str :=
  [("game: A".toList), ("file: a.bin".toList),
   ("description:".toList), ("  line1".toList), ("  line2".toList)]

/-- C1 (amended): `verify_closure` holds for canonical source texts such as
the §8 scenario — parse, serialize, re-parse agree under the §4.4
normalization — but not for every accepted text (see the counterexample). -/
theorem C1_closure_scenario : verify_closure scenarioLines = true := by decide

/-- C1 counterexample: the source text `shortname: nes` is accepted by the
parser (which stores the unrecognized key), but the serializer never re-emits
it, so the re-parsed header differs and `verify_closure` returns `false` —
refuting "for every source text … verify_closure returns true". -/
theorem C1_counterexample : verify_closure [("shortname: nes".toList)] = false := by
  decide

/-- C3: on `retroarch -L "/path/cores/mednafen_psx_hw_libretro_android.so"
"%ROM%"`, `extract_libretro_core` returns
`mednafen_psx_hw_libretro_android.so`, and `normalize_launch_block` sets its
`core` field to the same value. -/
theorem C3_core_extraction :
    extract_libretro_core c3LaunchString =
      some ("mednafen_psx_hw_libretro_android.so".toList) ∧
    (normalize_launch_block c3LaunchString).core =
      some ("mednafen_psx_hw_libretro_android.so".toList) := by
  constructor
  · decide
  · decide

/-- C4: the single-line form `extension: 7z, zip` and the block form
(`extension:` followed by indented `7z` and `zip`) both parse to a header
whose `extensions` entry is `["7z", "zip"]`. -/
theorem C4_extension_equivalence :
    dget (parse_pegasus_metadata [("extension: 7z, zip".toList)]).1
      ("extensions".toList) = some (Val.l [("7z".toList), ("zip".toList)]) ∧
    dget (parse_pegasus_metadata
        [("extension:".toList), ("  7z".toList), ("  zip".toList)]).1
      ("extensions".toList) = some (Val.l [("7z".toList), ("zip".toList)]) := by
  constructor
  · decide
  · decide

/-- C6: at the failing input (a game with a two-line description block) the
committed description is `"line1\n  line2"` — the second line keeps its
two-space indentation, because the parser buffers continuation lines with
`line.strip("\n")`, a no-op — contradicting the claim that every buffered
line has its leading indentation stripped. The claim's other half does hold:
an indented line with no active accumulation is discarded. The repository's
own closure check fails on this input as a direct consequence. -/
theorem C6_indentation_kept :
    dget ((parse_pegasus_metadata c6DescriptionLines).2.headD [])
        ("description".toList) = some (Val.s ("line1\n  line2".toList)) ∧
    parse_pegasus_metadata [("  stray".toList)] = parse_pegasus_metadata [] ∧
    verify_closure c6DescriptionLines = false := by
  refine ⟨by decide, by decide, by decide⟩

/-- C8 counterexample: parsing a header with the unrecognized key line
`foobar: baz` does not give the same header as parsing without it — the
unrecognized key is stored, not ignored. -/
theorem C8_counterexample :
    ¬ (parse_pegasus_metadata [("collection: X".toList), ("foobar: baz".toList)]).1 =
      (parse_pegasus_metadata [("collection: X".toList)]).1 := by
  decide

/-- C7: `normalize_launch_block` is total — it always returns a record whose
`raw` is the stripped input; a blank input yields a record with only `raw`
(empty); and when shell tokenization fails (unbalanced quoting) the record
has `raw` and an empty token list with no `emulator`, `binary`, `core` or
`rom_arg_index` set. -/
theorem C7_normalize_launch_total (s : Str) :
    (normalize_launch_block s).raw = pyStrip s ∧
    ((pyStrip s).isEmpty = true →
      normalize_launch_block s =
        ⟨pyStrip s, Option.none, Option.none, Option.none, Option.none, Option.none⟩) ∧
    (shlexSplitNonPosix (pyStrip s) = Option.none →
      normalize_launch_block s =
        ⟨pyStrip s, some [], Option.none, Option.none, Option.none, Option.none⟩) := by
  unfold normalize_launch_block
  refine ⟨?_, ?_, ?_⟩
  · by_cases h : (pyStrip s).isEmpty
    · simp [h]
    · simp only [h, Bool.false_eq_true, if_false]
      cases hs : shlexSplitNonPosix (pyStrip s) <;> simp
  · intro h
    simp [h]
  · intro h
    by_cases he : (pyStrip s).isEmpty
    · exfalso
      have hnil : pyStrip s = [] := by simpa [List.isEmpty_iff] using he
      rw [hnil] at h
      simp [shlexSplitNonPosix, shlexGo] at h
    · simp [he, h]

/-- C7 witness: at the whitespace-only input `"   "` and at the unbalanced
input `"abc` (an opening double quote that is never closed), the theorem's
two conditional conclusions hold. -/
theorem C7_witness :
    normalize_launch_block ("   ".toList) =
      ⟨pyStrip ("   ".toList), Option.none, Option.none, Option.none,
        Option.none, Option.none⟩ ∧
    normalize_launch_block ("\"abc".toList) =
      ⟨pyStrip ("\"abc".toList), some [], Option.none, Option.none,
        Option.none, Option.none⟩ :=
  ⟨(C7_normalize_launch_total ("   ".toList)).2.1 (by decide),
   (C7_normalize_launch_total ("\"abc".toList)).2.2 (by decide)⟩

/-!
## C2 support: when the serializer emits no launch line
-/

/-- The entry under `k` is not a non-blank string (the writer's
`isinstance(v, str) and v.strip()` test fails). -/
def launchKeyBlank (g : Dict) (k : Str) : Bool :=
  match dget g k with
  | some (.s v) => (pyStrip v).isEmpty
  | _ => true

/-- The entry under `launch` is not a non-empty list (the writer's list
fallback does not fire). -/
def launchListEmpty (g : Dict) : Bool :=
  match dget g ("launch".toList) with
  | some (.l v) => v.isEmpty
  | _ => true

theorem emit_launch_block_eq_nil (g : Dict)
    (h1 : launchKeyBlank g ("launch_override".toList) = true)
    (h2 : launchKeyBlank g ("launch_block".toList) = true)
    (h3 : launchKeyBlank g ("launch".toList) = true)
    (h4 : launchListEmpty g = true) :
    emit_launch_block g = [] := by
  unfold launchKeyBlank at h1 h2 h3
  unfold launchListEmpty at h4
  unfold emit_launch_block
  rcases hdo : dget g ("launch_override".toList) with _ | v <;>
    rw [hdo] at h1 <;> try cases v
  all_goals (
    rcases hdb : dget g ("launch_block".toList) with _ | w <;>
      rw [hdb] at h2 <;> try cases w)
  all_goals (
    rcases hdl : dget g ("launch".toList) with _ | u <;>
      rw [hdl] at h3 h4 <;> try cases u)
  all_goals simp_all

theorem not_launch_prefix_cons (c : Char) (rest : Str) (h : ¬ c = 'l') :
    ("launch".toList).isPrefixOf (c :: rest) = false := by
  have : ('l' == c) = false := by
    simpa using fun hh : 'l' = c => h hh.symm
  simp [List.isPrefixOf, this]

theorem not_launch_prefix_nil : ("launch".toList).isPrefixOf ([] : Str) = false := by
  decide

theorem emit_assets_lines_no_launch (g : Dict) (l : Str)
    (hl : l ∈ emit_assets_lines g) :
    ("launch".toList).isPrefixOf l = false := by
  have main : ∀ (assets : List (Str × Str)),
      l ∈ ([("box_front".toList), ("logo".toList), ("video".toList)]).filterMap
        (fun key =>
          match assets.find? (fun (kv : Str × Str) => kv.1 = key) with
          | some kv =>
            if ¬ (pyStrip kv.2).isEmpty then
              some (("assets.".toList) ++ key ++ (": ".toList) ++ kv.2)
            else Option.none
          | Option.none => Option.none) →
      ("launch".toList).isPrefixOf l = false := by
    intro assets hmem
    rw [List.mem_filterMap] at hmem
    obtain ⟨key, hkmem, hkey⟩ := hmem
    split at hkey
    · split at hkey
      · injection hkey with hkey
        subst hkey
        exact not_launch_prefix_cons 'a' _ (by decide)
      · cases hkey
    · cases hkey
  have gen : ∀ (A B : List (Str × Str)),
      l ∈ (if A.isEmpty = true then ([] : List Str) else
        ([("box_front".toList), ("logo".toList), ("video".toList)]).filterMap
          (fun key =>
            match B.find? (fun (kv : Str × Str) => kv.1 = key) with
            | some kv =>
              if ¬ (pyStrip kv.2).isEmpty then
                some (("assets.".toList) ++ key ++ (": ".toList) ++ kv.2)
              else Option.none
            | Option.none => Option.none)) →
      ("launch".toList).isPrefixOf l = false := by
    intro A B h
    split at h
    · simp at h
    · exact main B h
  unfold emit_assets_lines at hl
  split at hl
  · simp at hl
  · dsimp only at hl
    rcases hmb : infer_media_base_from_multifiles g with _ | b <;>
      rw [hmb] at hl <;> dsimp only at hl
    · exact gen _ _ hl
    · exact gen _ _ hl

/-- A serialized line that does not begin with `launch`. -/
def noLaunchLine (line : Str) : Bool := !(("launch".toList).isPrefixOf line)

theorem noLaunchLine_cons (c : Char) (rest : Str) (hc : ¬ c = 'l') :
    noLaunchLine (c :: rest) = true := by
  unfold noLaunchLine
  rw [not_launch_prefix_cons c rest hc]
  rfl

theorem all_single_noLaunch (c : Char) (rest : Str) (hc : ¬ c = 'l') :
    ([c :: rest]).all noLaunchLine = true := by
  simp [noLaunchLine_cons c rest hc]

theorem all_map_indent_noLaunch (rs : List Str) :
    (rs.map (fun p => ("  ".toList) ++ p)).all noLaunchLine = true := by
  rw [List.all_eq_true]
  intro l hl
  rw [List.mem_map] at hl
  obtain ⟨p, _, rfl⟩ := hl
  exact noLaunchLine_cons ' ' _ (by decide)

theorem all_roms_noLaunch (rs : List Str) :
    (if ¬ rs.isEmpty = true then
      if rs.length = 1 then [("file: ".toList) ++ rs.headD []]
      else ("files:".toList) :: rs.map (fun p => ("  ".toList) ++ p)
     else []).all noLaunchLine = true := by
  split
  · split
    · exact all_single_noLaunch 'f' _ (by decide)
    · rw [List.all_cons, Bool.and_eq_true]
      exact ⟨noLaunchLine_cons 'f' _ (by decide), all_map_indent_noLaunch rs⟩
  · rfl

theorem all_optline_noLaunch (b : Bool) (c : Char) (rest : Str) (hc : ¬ c = 'l') :
    (if b = true then [c :: rest] else []).all noLaunchLine = true := by
  split
  · exact all_single_noLaunch c rest hc
  · rfl

theorem all_desc_noLaunch (ov : Option Val) :
    (match ov with
      | some (.s d) =>
        if ¬ d.isEmpty = true then
          if (pySplitlines d).length = 1 then
            [("description: ".toList) ++ (pySplitlines d).headD []]
          else ("description:".toList) ::
            (pySplitlines d).map (fun l => ("  ".toList) ++ l)
        else []
      | _ => ([] : List Str)).all noLaunchLine = true := by
  rcases ov with _ | v
  · rfl
  · rcases v with d | _ | _ | _
    · dsimp only
      split
      · split
        · exact all_single_noLaunch 'd' _ (by decide)
        · rw [List.all_cons, Bool.and_eq_true]
          exact ⟨noLaunchLine_cons 'd' _ (by decide), all_map_indent_noLaunch _⟩
      · rfl
    · rfl
    · rfl
    · rfl

theorem all_assets_noLaunch (g : Dict) :
    (emit_assets_lines g).all noLaunchLine = true := by
  rw [List.all_eq_true]
  intro l hl
  unfold noLaunchLine
  rw [emit_assets_lines_no_launch g l hl]
  rfl

theorem all_blank_noLaunch : ([([] : Str)]).all noLaunchLine = true := by decide

/-- C2 (amended): a game none of whose `launch_override` / `launch_block` /
`launch` entries holds a non-blank string (nor a non-empty list under
`launch`) has no line starting with `launch` in its serialized block. The
serializer never consults the header, so the claim's second half fails: a
game whose launch equals the header default still emits it (see the
counterexample); the override-versus-default comparison lives in the JSON
exporter, not in `dump_pegasus_metadata`. -/
theorem C2_no_override_no_launch_line (g : Dict)
    (h1 : launchKeyBlank g ("launch_override".toList) = true)
    (h2 : launchKeyBlank g ("launch_block".toList) = true)
    (h3 : launchKeyBlank g ("launch".toList) = true)
    (h4 : launchListEmpty g = true) :
    (write_game g).all noLaunchLine = true := by
  unfold write_game
  dsimp only
  split
  case isFalse =>
    split
    case isTrue => rfl
    case isFalse =>
      rw [emit_launch_block_eq_nil g h1 h2 h3 h4]
      simp only [List.all_append, List.append_nil, List.all_nil, Bool.and_eq_true]
      repeat' apply And.intro
      all_goals
        first
          | exact all_single_noLaunch 'g' _ (by decide)
          | exact all_roms_noLaunch _
          | exact all_optline_noLaunch _ 's' _ (by decide)
          | exact all_optline_noLaunch _ 'd' _ (by decide)
          | exact all_desc_noLaunch _
          | exact all_assets_noLaunch g
          | exact all_blank_noLaunch
  case isTrue =>
    rw [emit_launch_block_eq_nil g h1 h2 h3 h4]
    simp only [List.all_append, List.append_nil, List.all_nil, Bool.and_eq_true]
    repeat' apply And.intro
    all_goals
      first
        | exact all_single_noLaunch 'g' _ (by decide)
        | exact all_roms_noLaunch _
        | exact all_optline_noLaunch _ 's' _ (by decide)
        | exact all_optline_noLaunch _ 'd' _ (by decide)
        | exact all_desc_noLaunch _
        | exact all_assets_noLaunch g
        | exact all_blank_noLaunch

/-- C2 counterexample: a header whose default launch block is `run` and a
game whose launch block is the identical string `run`; the serializer still
emits `launch: run` inside the game block, refuting "the serializer never
emits a launch line identical to the inherited header default". -/
theorem C2_counterexample :
    dget [(("launch_block".toList), Val.s ("run".toList))] ("launch_block".toList) =
      dget [(("game".toList), Val.s ("A".toList)),
            (("launch_block".toList), Val.s ("run".toList))] ("launch_block".toList) ∧
    dump_pegasus_metadata [(("launch_block".toList), Val.s ("run".toList))]
        [[(("game".toList), Val.s ("A".toList)),
          (("launch_block".toList), Val.s ("run".toList))]] =
      [("launch: run".toList), ("game: A".toList), ("launch: run".toList), ([] : Str)] := by
  constructor
  · decide
  · decide

/-- C2 witness: the game `{game: "A", roms: ["a.bin"]}` has no launch entry,
and its serialized block contains no line starting with `launch`. -/
theorem C2_witness :
    (write_game [(("game".toList), Val.s ("A".toList)),
      (("roms".toList), Val.l [("a.bin".toList)])]).all noLaunchLine = true :=
  C2_no_override_no_launch_line _ (by decide) (by decide) (by decide) (by decide)

/-!
## C10 support: characterizing `extract_libretro_core`
-/

/-- `name` is a core file name as the regex sees it — a non-empty run of
characters from `[^/\s]` followed by the literal `_libretro_android.so` — and
`"/cores/" ++ name` occurs as a substring of `s`. -/
def coreOccurrence (s name : Str) : Prop :=
  (∃ stem, ¬ stem = [] ∧ stem.all launchClassChar = true ∧
    name = stem ++ coreSuffix) ∧
  ∃ pre post, s = pre ++ coresMarker ++ name ++ post

theorem greedySplit_some {run : Str} {m : Nat} (h : greedySplit run = some m) :
    1 ≤ m ∧ coreSuffix.isPrefixOf (run.drop m) = true := by
  have hp := List.find?_some h
  rw [Bool.and_eq_true] at hp
  exact ⟨by simpa using hp.1, hp.2⟩

theorem greedySplit_isSome {run : Str} {m : Nat} (hm : 1 ≤ m)
    (hle : m ≤ run.length) (hpre : coreSuffix.isPrefixOf (run.drop m) = true) :
    (greedySplit run).isSome := by
  unfold greedySplit
  rw [List.find?_isSome]
  refine ⟨m, ?_, ?_⟩
  · rw [List.mem_reverse, List.mem_range]
    omega
  · rw [Bool.and_eq_true]
    exact ⟨by simpa using hm, hpre⟩

theorem prefix_takeWhile {p : Str} {l : Str} (cls : Char → Bool)
    (hp : p <+: l) (hall : ∀ x ∈ p, cls x = true) : p <+: l.takeWhile cls := by
  induction p generalizing l with
  | nil => exact List.nil_prefix
  | cons c cs ih =>
    obtain ⟨t, ht⟩ := hp
    cases l with
    | nil => cases ht
    | cons d ds =>
      injection ht with h1 h2
      subst h1
      have hc : cls c = true := hall c (List.mem_cons_self c cs)
      have hih := ih (l := ds) ⟨t, h2⟩ (fun x hx => hall x (List.mem_cons_of_mem _ hx))
      obtain ⟨t2, ht2⟩ := hih
      refine ⟨t2, ?_⟩
      rw [List.takeWhile_cons_of_pos hc, List.cons_append, ht2]

theorem tryMatchCores_some {rest g : Str} (h : tryMatchCores rest = some g) :
    (∃ stem, ¬ stem = [] ∧ stem.all launchClassChar = true ∧
      g = stem ++ coreSuffix) ∧ g <+: rest := by
  unfold tryMatchCores at h
  rcases hg : greedySplit (rest.takeWhile launchClassChar) with _ | m <;>
    rw [hg] at h
  · cases h
  · injection h with h
    subst h
    obtain ⟨hm, hpre⟩ := greedySplit_some hg
    set run := rest.takeWhile launchClassChar with hrun
    rw [List.isPrefixOf_iff_prefix] at hpre
    obtain ⟨t, ht⟩ := hpre
    have hdrop_ne : run.drop m ≠ [] := by
      intro hnil
      rw [hnil] at ht
      have hcs : coreSuffix = [] := (List.append_eq_nil.mp ht).1
      exact absurd hcs (by decide)
    have hmlt : m < run.length := by
      by_contra hge
      exact hdrop_ne (List.drop_eq_nil_of_le (by omega))
    constructor
    · refine ⟨run.take m, ?_, ?_, rfl⟩
      · intro hnil
        have : (run.take m).length = 0 := by rw [hnil]; rfl
        rw [List.length_take] at this
        omega
      · rw [List.all_eq_true]
        intro x hx
        exact List.mem_takeWhile_imp (List.take_subset m run hx)
    · have hgrun : run.take m ++ coreSuffix <+: run := by
        refine ⟨t, ?_⟩
        calc run.take m ++ coreSuffix ++ t
            = run.take m ++ (coreSuffix ++ t) := by rw [List.append_assoc]
          _ = run.take m ++ run.drop m := by rw [ht]
          _ = run := List.take_append_drop m run
      exact hgrun.trans (List.takeWhile_prefix launchClassChar)

theorem tryMatchCores_isSome {rest stem : Str} (hne : ¬ stem = [])
    (hcls : stem.all launchClassChar = true)
    (hpre : stem ++ coreSuffix <+: rest) :
    (tryMatchCores rest).isSome := by
  unfold tryMatchCores
  have hallcls : ∀ x ∈ stem ++ coreSuffix, launchClassChar x = true := by
    intro x hx
    rw [List.mem_append] at hx
    rcases hx with hx | hx
    · exact (List.all_eq_true.mp hcls) x hx
    · revert hx
      have : coreSuffix.all launchClassChar = true := by decide
      exact fun hx => (List.all_eq_true.mp this) x hx
  have hrun : stem ++ coreSuffix <+: rest.takeWhile launchClassChar :=
    prefix_takeWhile launchClassChar hpre hallcls
  set run := rest.takeWhile launchClassChar with hrundef
  obtain ⟨t, ht⟩ := hrun
  have hm : 1 ≤ stem.length := by
    cases stem with
    | nil => exact absurd rfl hne
    | cons a l => simp
  have hlen : stem.length ≤ run.length := by
    have : run.length = stem.length + coreSuffix.length + t.length := by
      rw [← ht]
      simp only [List.length_append]
    omega
  have hdrop : coreSuffix.isPrefixOf (run.drop stem.length) = true := by
    rw [List.isPrefixOf_iff_prefix]
    refine ⟨t, ?_⟩
    have : run.drop stem.length = coreSuffix ++ t := by
      rw [← ht, List.append_assoc, List.drop_left]
    rw [this]
  have hsome := greedySplit_isSome hm hlen hdrop
  rcases hgs : greedySplit run with _ | m
  · rw [hgs] at hsome
    simp at hsome
  · simp [hgs]

theorem searchCores_some {s g : Str} (h : searchCores s = some g) :
    ∃ pre rest, s = pre ++ (coresMarker ++ rest) ∧ tryMatchCores rest = some g := by
  induction s with
  | nil => cases h
  | cons c cs ih =>
    rw [searchCores] at h
    by_cases hpre : coresMarker.isPrefixOf (c :: cs) = true
    · rw [if_pos hpre] at h
      rcases htm : tryMatchCores ((c :: cs).drop 7) with _ | g2 <;> rw [htm] at h
      · obtain ⟨pre, rest, hdec, htm2⟩ := ih h
        exact ⟨c :: pre, rest, by rw [List.cons_append, ← hdec], htm2⟩
      · injection h with h
        subst h
        rw [List.isPrefixOf_iff_prefix] at hpre
        obtain ⟨t, ht⟩ := hpre
        refine ⟨[], (c :: cs).drop 7, ?_, htm⟩
        rw [List.nil_append, ← ht]
        have h7 : (coresMarker ++ t).drop 7 = t := by
          have : coresMarker.length = 7 := by decide
          rw [← this, List.drop_left]
        rw [h7]
    · rw [if_neg hpre] at h
      obtain ⟨pre, rest, hdec, htm2⟩ := ih h
      exact ⟨c :: pre, rest, by rw [List.cons_append, ← hdec], htm2⟩

theorem searchCores_isSome (stem post : Str) (hne : ¬ stem = [])
    (hcls : stem.all launchClassChar = true) :
    ∀ pre : Str,
      (searchCores (pre ++ (coresMarker ++ (stem ++ (coreSuffix ++ post))))).isSome := by
  intro pre
  induction pre with
  | nil =>
    rw [List.nil_append]
    show (searchCores ('/' :: (("cores/".toList) ++
      (stem ++ (coreSuffix ++ post))))).isSome
    rw [searchCores]
    have hpre : coresMarker.isPrefixOf
        ('/' :: (("cores/".toList) ++ (stem ++ (coreSuffix ++ post)))) = true := by
      rw [List.isPrefixOf_iff_prefix]
      exact ⟨stem ++ (coreSuffix ++ post), by simp [coresMarker]⟩
    rw [if_pos hpre]
    have hdrop : (('/' :: (("cores/".toList) ++
        (stem ++ (coreSuffix ++ post)))).drop 7) = stem ++ (coreSuffix ++ post) := by
      rfl
    rw [hdrop]
    have htm : (tryMatchCores (stem ++ (coreSuffix ++ post))).isSome := by
      refine tryMatchCores_isSome hne hcls ?_
      exact ⟨post, by rw [List.append_assoc]⟩
    rcases hm : tryMatchCores (stem ++ (coreSuffix ++ post)) with _ | g
    · rw [hm] at htm
      simp at htm
    · simp [hm]
  | cons c pre2 ih =>
    rw [List.cons_append, searchCores]
    split
    · rcases hm : tryMatchCores ((c :: (pre2 ++ (coresMarker ++
          (stem ++ (coreSuffix ++ post))))).drop 7) with _ | g
      · exact ih
      · simp
    · exact ih

/-- C10: `extract_libretro_core` returns a name exactly when the launch
string contains `"/cores/"` immediately followed by a file name made of
non-slash, non-whitespace characters and ending in `_libretro_android.so`;
the returned name is such a file name and `"/cores/" ++ name` occurs in the
input verbatim; when no such occurrence exists (Windows backslash paths,
cores outside a `/cores/` directory, plain `_libretro.so` names), it returns
`None`. -/
theorem C10_core_pattern (s : Str) :
    (∀ name, extract_libretro_core s = some name → coreOccurrence s name) ∧
    (extract_libretro_core s = Option.none → ∀ name, ¬ coreOccurrence s name) := by
  constructor
  · intro name h
    unfold extract_libretro_core at h
    split at h
    · cases h
    · obtain ⟨pre, rest, hs, htm⟩ := searchCores_some h
      obtain ⟨⟨stem, hne, hcls, hg⟩, hgpre⟩ := tryMatchCores_some htm
      refine ⟨⟨stem, hne, hcls, hg⟩, pre, ?_⟩
      obtain ⟨post, hpost⟩ := hgpre
      refine ⟨post, ?_⟩
      rw [hs, ← hpost]
      simp [List.append_assoc]
  · intro h name hocc
    obtain ⟨⟨stem, hne, hcls, hgname⟩, pre, post, hs⟩ := hocc
    have hsome := searchCores_isSome stem post hne hcls pre
    have hform : s = pre ++ (coresMarker ++ (stem ++ (coreSuffix ++ post))) := by
      rw [hs, hgname]
      simp [List.append_assoc]
    unfold extract_libretro_core at h
    split at h
    · rename_i hisempty
      rw [hform] at hisempty
      have hm : ¬ (pre ++ (coresMarker ++ (stem ++ (coreSuffix ++ post)))).isEmpty = true := by
        simp [coresMarker]
      exact hm hisempty
    · rw [hform] at h
      rw [h] at hsome
      simp at hsome

/-- C10 witness: instantiating the characterization at the retroarch launch
command yields the concrete occurrence for
`mednafen_psx_hw_libretro_android.so`. -/
theorem C10_witness :
    coreOccurrence c3LaunchString ("mednafen_psx_hw_libretro_android.so".toList) :=
  (C10_core_pattern c3LaunchString).1 _ (by decide)

/-!
## C9 support: the primary-file / roms alignment invariant
-/

/-- The claim's invariant: a game whose `roms` list is non-empty has its
`file` entry equal to the first rom. -/
def fileAligned (g : Dict) : Prop :=
  ∀ roms, dget g ("roms".toList) = some (Val.l roms) → ¬ roms = [] →
    dget g ("file".toList) = some (Val.s (roms.headD []))

theorem hyphenToUnderscore_no_underscore {k t : Str}
    (ht : ∀ c ∈ t, ¬ c = '_') (h : hyphenToUnderscore k = t) : k = t := by
  induction k generalizing t with
  | nil =>
    unfold hyphenToUnderscore at h
    rw [List.map_nil] at h
    exact h
  | cons c cs ih =>
    cases t with
    | nil =>
      unfold hyphenToUnderscore at h
      rw [List.map_cons] at h
      cases h
    | cons d ds =>
      unfold hyphenToUnderscore at h
      rw [List.map_cons] at h
      injection h with h1 h2
      have hd : ¬ d = '_' := ht d (List.mem_cons_self d ds)
      by_cases hc : c = '-'
      · rw [hc, if_pos rfl] at h1
        exact absurd h1.symm hd
      · rw [if_neg hc] at h1
        subst h1
        have hds := ih (t := ds) (fun x hx => ht x (List.mem_cons_of_mem _ hx)) h2
        rw [hds]

theorem ensure_default_assets_dget (g : Dict) (k : Str)
    (hk : ¬ k = ("assets".toList)) :
    dget (ensure_default_assets g) k = dget g k := by
  unfold ensure_default_assets
  dsimp only
  repeat' split
  all_goals first
    | rfl
    | exact dget_dset_ne g _ k _ hk

theorem finalize_game_aligned (cg : Dict)
    (hf : dget cg ("file".toList) = Option.none) :
    fileAligned (finalize_game cg) := by
  unfold finalize_game
  dsimp only
  rw [hf]
  dsimp only
  rw [hf]
  dsimp only
  rw [dget_dset_ne cg ("roms".toList) ("file".toList) _ (by decide), hf]
  simp only [ite_self]
  set roms1 := (dgetList cg ("roms".toList)).filter (fun r =>
    decide (¬ (pyStrip r).isEmpty = true ∧
      ¬ ("files:".toList).isPrefixOf (pyLower (pyStrip r)) = true)) with hroms1
  intro roms hroms hne
  by_cases hr1 : roms1 = []
  case pos =>
    have hC : ¬ (¬ roms1.isEmpty = true ∧ ¬ truthy Option.none = true) := by
      intro hc
      exact hc.1 (by simp [hr1])
    rw [if_neg hC] at hroms ⊢
    rw [ensure_default_assets_dget _ _ (by decide), dget_dset_self] at hroms
    injection hroms with hv
    injection hv with hv
    rw [hr1] at hv
    exact absurd hv.symm hne
  case neg =>
    have hC : (¬ roms1.isEmpty = true ∧ ¬ truthy Option.none = true) := by
      constructor
      · simpa [List.isEmpty_iff] using hr1
      · simp [truthy]
    rw [if_pos hC] at hroms ⊢
    rw [ensure_default_assets_dget _ _ (by decide),
      dget_dset_ne _ _ _ _ (by decide), dget_dset_self] at hroms
    injection hroms with hv
    injection hv with hv
    rw [ensure_default_assets_dget _ _ (by decide), dget_dset_self, hv]

theorem finalize_multiline_keeps_file (cg : Dict) (k : Str) (buf : List Str)
    (hk : isMultilineKey k = true) :
    dget (finalize_multiline_prop cg (some k) buf false) ("file".toList) =
      dget cg ("file".toList) := by
  have hk2 := of_decide_eq_true hk
  rcases hk2 with rfl | rfl | rfl | rfl | rfl | rfl <;>
    exact dget_dset_ne cg _ _ _ (by decide)

/-- The loop invariant for the C9 proof: the game under construction never
holds a `file` entry, finished games are aligned, and the active multi-line
key (if any) is one of the six multi-line property names. -/
def C9Inv (st : PState) : Prop :=
  (∀ cg, st.current_game = some cg → dget cg ("file".toList) = Option.none) ∧
  (∀ g ∈ st.games, fileAligned g) ∧
  (∀ k, st.current_key = some k → isMultilineKey k = true)

theorem C9Inv_pflush (st : PState) (h : C9Inv st) : C9Inv (pflush st) := by
  obtain ⟨h1, h2, h3⟩ := h
  unfold pflush
  split
  · exact ⟨h1, h2, by intro k hk; simp at hk⟩
  · split
    · rename_i cg hcg
      refine ⟨?_, h2, by intro k hk; simp at hk⟩
      intro cg' hcg'
      injection hcg' with hcg'
      subst hcg'
      rcases hck : st.current_key with _ | k
      · exact h1 cg hcg
      · rw [finalize_multiline_keeps_file cg k st.buf (h3 k hck)]
        exact h1 cg hcg
    · exact ⟨h1, h2, by intro k hk; simp at hk⟩

theorem C9Inv_pstep (st : PState) (line : Str) (h : C9Inv st) :
    C9Inv (pstep st line) := by
  obtain ⟨hp1, hp2, hp3⟩ := C9Inv_pflush st h
  obtain ⟨h1, h2, h3⟩ := h
  unfold pstep
  split
  · exact ⟨h1, h2, h3⟩
  · split
    · -- top-level key line
      rcases hsf : splitFirst ':' line with _ | kv
      · exact ⟨hp1, hp2, hp3⟩
      · obtain ⟨k, v⟩ := kv
        dsimp only
        split
        · -- game: start a new block
          refine ⟨?_, ?_, ?_⟩
          · intro cg' hcg'
            injection hcg' with hcg'
            subst hcg'
            rfl
          · intro g hg
            dsimp only at hg
            split at hg
            · rename_i cg hcg
              rw [List.mem_append] at hg
              rcases hg with hg | hg
              · exact hp2 g hg
              · rw [List.mem_singleton] at hg
                subst hg
                exact finalize_game_aligned cg (hp1 cg hcg)
            · exact hp2 g hg
          · intro k' hk'
            simp at hk'
        · split
          · -- file: append to roms
            split
            · exact ⟨hp1, hp2, hp3⟩
            · split
              · exact ⟨hp1, hp2, hp3⟩
              · rename_i cg hcg
                refine ⟨?_, hp2, hp3⟩
                intro cg' hcg'
                injection hcg' with hcg'
                subst hcg'
                rw [dget_dset_ne _ _ _ _ (by decide)]
                exact hp1 cg hcg
          · split
            · -- multi-line property keys
              split
              · -- files
                refine ⟨hp1, hp2, ?_⟩
                intro k' hk'
                injection hk' with hk'
                subst hk'
                rename_i hkey
                rw [hkey]
                decide
              · split
                · -- header extension with inline value
                  split
                  · exact ⟨hp1, hp2, by intro k' hk'; simp at hk'⟩
                  · refine ⟨hp1, hp2, ?_⟩
                    intro k' hk'
                    injection hk' with hk'
                    subst hk'
                    rename_i hext hval
                    rcases hext.1 with hkey | hkey <;> rw [hkey] <;> decide
                · -- other multi-line starts
                  refine ⟨hp1, hp2, ?_⟩
                  intro k' hk'
                  injection hk' with hk'
                  subst hk'
                  rename_i hml _ _
                  exact hml
            · -- single-line property
              split
              · split
                · exact ⟨hp1, hp2, hp3⟩
                · exact ⟨hp1, hp2, hp3⟩
              · split
                · exact ⟨hp1, hp2, hp3⟩
                · rename_i cg hcg
                  split
                  · refine ⟨?_, hp2, hp3⟩
                    intro cg' hcg'
                    injection hcg' with hcg'
                    subst hcg'
                    rw [dget_dset_ne _ _ _ _ (by decide)]
                    exact hp1 cg hcg
                  · refine ⟨?_, hp2, hp3⟩
                    intro cg' hcg'
                    injection hcg' with hcg'
                    subst hcg'
                    rw [dget_dset_ne _ _ _ _ ?_]
                    · exact hp1 cg hcg
                    · intro heq
                      have hkf : pyStrip k = ("file".toList) :=
                        hyphenToUnderscore_no_underscore (by decide) heq.symm
                      exact absurd hkf (by assumption)
    · -- continuation line
      split
      · exact ⟨h1, h2, h3⟩
      · exact ⟨h1, h2, h3⟩

theorem C9Inv_foldl (lines : List Str) (st : PState) (h : C9Inv st) :
    C9Inv (lines.foldl pstep st) := by
  induction lines generalizing st with
  | nil => exact h
  | cons l ls ih => exact ih _ (C9Inv_pstep st l h)

/-- C9: every game produced by `parse_pegasus_metadata` has its `file`
(primary file) entry equal to the first element of its `roms` list whenever
that list is non-empty — parsing never finalizes a game whose primary file
differs from `roms[0]`. (The seeding branch for an empty `roms` with a
recorded `file` is subsumed: the parser never stores a `file` entry before
finalization, and finalization always realigns `file` with `roms[0]`.) -/
theorem C9_primary_file_aligned (lines : List Str) (g : Dict)
    (hg : g ∈ (parse_pegasus_metadata lines).2)
    (roms : List Str) (hroms : dget g ("roms".toList) = some (Val.l roms))
    (hne : ¬ roms = []) :
    dget g ("file".toList) = some (Val.s (roms.headD [])) := by
  have h0 : C9Inv ⟨[], [], Option.none, true, Option.none, []⟩ := by
    refine ⟨?_, ?_, ?_⟩
    · intro cg hcg
      simp at hcg
    · intro g2 hg2
      simp at hg2
    · intro k hk
      simp at hk
  have hfold := C9Inv_foldl lines _ h0
  obtain ⟨f1, f2, f3⟩ := C9Inv_pflush _ hfold
  unfold parse_pegasus_metadata at hg
  dsimp only at hg
  have hfa : fileAligned g := by
    split at hg
    · rename_i cg hcg
      rw [List.mem_append] at hg
      rcases hg with hg2 | hg2
      · exact f2 g hg2
      · rw [List.mem_singleton] at hg2
        subst hg2
        exact finalize_game_aligned cg (f1 cg hcg)
    · exact f2 g hg
  exact hfa roms hroms hne

theorem headD_mem_of_ne_nil {α : Type} (l : List α) (d : α) (h : ¬ l = []) :
    l.headD d ∈ l := by
  cases l with
  | nil => exact absurd rfl h
  | cons a as => exact List.mem_cons_self a as

/-- C9 witness: the parsed Shenmue game of the scenario input has
`file = "shenmue.cdi" = roms[0]`. -/
theorem C9_witness :
    dget ((parse_pegasus_metadata scenarioLines).2.headD []) ("file".toList) =
      some (Val.s ("shenmue.cdi".toList)) :=
  C9_primary_file_aligned scenarioLines _
    (headD_mem_of_ne_nil _ _ (by decide)) [("shenmue.cdi".toList)]
    (by decide) (by decide)

/-!
## C5 support: string and line lemmas for the round trip
-/

theorem pyLStrip_cons_ws {c : Char} (s : Str) (hc : pyIsWs c = true) :
    pyLStrip (c :: s) = pyLStrip s := by
  unfold pyLStrip
  rw [List.dropWhile_cons, hc]
  rfl

theorem pyLStrip_cons_neg {c : Char} (s : Str) (hc : pyIsWs c = false) :
    pyLStrip (c :: s) = c :: s := by
  unfold pyLStrip
  rw [List.dropWhile_cons, hc]
  rfl

theorem pyStrip_cons_space (s : Str) : pyStrip (' ' :: s) = pyStrip s := by
  unfold pyStrip
  rw [pyLStrip_cons_ws s (by decide)]

theorem pyRStrip_ne_nil {c : Char} (s : Str) (hc : pyIsWs c = false) :
    ¬ pyRStrip (c :: s) = [] := by
  intro h
  unfold pyRStrip at h
  rw [List.reverse_eq_nil_iff] at h
  rw [List.dropWhile_eq_nil_iff] at h
  have := h c (by simp)
  rw [hc] at this
  cases this

theorem pyStrip_cons_ne_nil {c : Char} (s : Str) (hc : pyIsWs c = false) :
    ¬ pyStrip (c :: s) = [] := by
  unfold pyStrip
  rw [pyLStrip_cons_neg s hc]
  exact pyRStrip_ne_nil s hc

theorem pyLStrip_of_stripped {p : Str} (h : pyStrip p = p) : pyLStrip p = p := by
  have h1 : (pyLStrip p).length ≤ p.length :=
    (List.dropWhile_suffix _).sublist.length_le
  have h2 : (pyStrip p).length ≤ (pyLStrip p).length := by
    unfold pyStrip pyRStrip
    rw [List.length_reverse]
    calc ((pyLStrip p).reverse.dropWhile pyIsWs).length
        ≤ (pyLStrip p).reverse.length :=
          (List.dropWhile_suffix _).sublist.length_le
      _ = (pyLStrip p).length := List.length_reverse _
  rw [h] at h2
  have hlen : (pyLStrip p).length = p.length := le_antisymm h1 h2
  have hsuf : pyLStrip p <:+ p := List.dropWhile_suffix _
  exact List.IsSuffix.eq_of_length hsuf hlen

theorem splitFirst_append {A : Str} {sep : Char} (B : Str)
    (hA : ∀ x ∈ A, ¬ x = sep) :
    splitFirst sep (A ++ sep :: B) = some (A, B) := by
  induction A with
  | nil =>
    rw [List.nil_append]
    unfold splitFirst
    rw [if_pos rfl]
  | cons c cs ih =>
    rw [List.cons_append]
    unfold splitFirst
    rw [if_neg (hA c (List.mem_cons_self c cs))]
    rw [ih (fun x hx => hA x (List.mem_cons_of_mem _ hx))]
    rfl

theorem cons_not_prefix_cons {a c : Char} (as rest : Str) (h : ¬ a = c) :
    ((a :: as).isPrefixOf (c :: rest)) = false := by
  have hb : (a == c) = false := by simpa using h
  simp [List.isPrefixOf, hb]

theorem pflush_in_header (st : PState) : (pflush st).in_header = st.in_header := by
  unfold pflush
  repeat' split
  all_goals rfl

theorem pflush_games (st : PState) : (pflush st).games = st.games := by
  unfold pflush
  repeat' split
  all_goals rfl

theorem pstep_game_line (st : PState) (t : Str) (ht : pyStrip t = t) :
    pstep st (("game: ".toList) ++ t) =
      { pflush st with
        games := (match (pflush st).current_game with
          | some cg => (pflush st).games ++ [finalize_game cg]
          | Option.none => (pflush st).games),
        in_header := false,
        current_game := some [(("game".toList), Val.s t)],
        current_key := Option.none, buf := [] } := by
  unfold pstep
  have hC : ¬ ((pyStrip (("game: ".toList) ++ t)).isEmpty = true ∨
      ("#".toList).isPrefixOf (pyLStrip (("game: ".toList) ++ t)) = true) := by
    intro hc
    rcases hc with hc | hc
    · have : ¬ pyStrip ('g' :: (("ame: ".toList) ++ t)) = [] :=
        pyStrip_cons_ne_nil _ (by decide)
      rw [List.isEmpty_iff] at hc
      exact this hc
    · have hl : pyLStrip ('g' :: (("ame: ".toList) ++ t)) =
          'g' :: (("ame: ".toList) ++ t) := pyLStrip_cons_neg _ (by decide)
      rw [show pyLStrip (("game: ".toList) ++ t) =
        pyLStrip ('g' :: (("ame: ".toList) ++ t)) from rfl, hl] at hc
      have hfalse : ("#".toList).isPrefixOf ('g' :: (("ame: ".toList) ++ t)) = false :=
        cons_not_prefix_cons _ _ (by decide)
      rw [hfalse] at hc
      cases hc
  rw [if_neg hC]
  have hI : ¬ (" ".toList).isPrefixOf (("game: ".toList) ++ t) = true := by
    rw [show (" ".toList).isPrefixOf (("game: ".toList) ++ t) =
      ((' ' :: []).isPrefixOf ('g' :: (("ame: ".toList) ++ t))) from rfl]
    rw [cons_not_prefix_cons _ _ (by decide)]
    simp
  rw [if_pos hI]
  have hsf : splitFirst ':' (("game: ".toList) ++ t) =
      some (("game".toList), ' ' :: t) :=
    @splitFirst_append ("game".toList) ':' (' ' :: t) (by decide)
  rw [hsf]
  dsimp only
  rw [show pyStrip ("game".toList) = ("game".toList) from by decide]
  rw [if_pos rfl]
  rw [pyStrip_cons_space, ht]

theorem pstep_file_line (st : PState) (cg : Dict) (p : Str)
    (hin : st.in_header = false)
    (hcg : (pflush st).current_game = some cg)
    (hp : pyStrip p = p) :
    pstep st (("file: ".toList) ++ p) =
      { pflush st with current_game := some (dset cg ("roms".toList)
          (.l (dgetList cg ("roms".toList) ++ [p]))) } := by
  unfold pstep
  have hC : ¬ ((pyStrip (("file: ".toList) ++ p)).isEmpty = true ∨
      ("#".toList).isPrefixOf (pyLStrip (("file: ".toList) ++ p)) = true) := by
    intro hc
    rcases hc with hc | hc
    · have : ¬ pyStrip ('f' :: (("ile: ".toList) ++ p)) = [] :=
        pyStrip_cons_ne_nil _ (by decide)
      rw [List.isEmpty_iff] at hc
      exact this hc
    · have hl : pyLStrip ('f' :: (("ile: ".toList) ++ p)) =
          'f' :: (("ile: ".toList) ++ p) := pyLStrip_cons_neg _ (by decide)
      rw [show pyLStrip (("file: ".toList) ++ p) =
        pyLStrip ('f' :: (("ile: ".toList) ++ p)) from rfl, hl] at hc
      have hfalse : ("#".toList).isPrefixOf ('f' :: (("ile: ".toList) ++ p)) = false :=
        cons_not_prefix_cons _ _ (by decide)
      rw [hfalse] at hc
      cases hc
  rw [if_neg hC]
  have hI : ¬ (" ".toList).isPrefixOf (("file: ".toList) ++ p) = true := by
    rw [show (" ".toList).isPrefixOf (("file: ".toList) ++ p) =
      ((' ' :: []).isPrefixOf ('f' :: (("ile: ".toList) ++ p))) from rfl]
    rw [cons_not_prefix_cons _ _ (by decide)]
    simp
  rw [if_pos hI]
  have hsf : splitFirst ':' (("file: ".toList) ++ p) =
      some (("file".toList), ' ' :: p) :=
    @splitFirst_append ("file".toList) ':' (' ' :: p) (by decide)
  rw [hsf]
  dsimp only
  rw [show pyStrip ("file".toList) = ("file".toList) from by decide]
  rw [if_neg (by decide), if_pos rfl]
  rw [pflush_in_header, hin]
  rw [if_neg Bool.false_ne_true]
  rw [hcg]
  rw [pyStrip_cons_space, hp]

theorem pstep_contin_line (st : PState) (p : Str)
    (hck : st.current_key.isSome = true)
    (hp : pyStrip p = p) (hpne : ¬ p = [])
    (hph : ¬ ("#".toList).isPrefixOf p = true) :
    pstep st (("  ".toList) ++ p) =
      { st with buf := st.buf ++ [("  ".toList) ++ p] } := by
  unfold pstep
  have hstrip : pyStrip (("  ".toList) ++ p) = p := by
    rw [show pyStrip (("  ".toList) ++ p) =
      pyStrip (' ' :: (' ' :: p)) from rfl]
    rw [pyStrip_cons_space, pyStrip_cons_space, hp]
  have hC : ¬ ((pyStrip (("  ".toList) ++ p)).isEmpty = true ∨
      ("#".toList).isPrefixOf (pyLStrip (("  ".toList) ++ p)) = true) := by
    intro hc
    rcases hc with hc | hc
    · rw [hstrip, List.isEmpty_iff] at hc
      exact hpne hc
    · have hls : pyLStrip (("  ".toList) ++ p) = pyLStrip p := by
        rw [show pyLStrip (("  ".toList) ++ p) =
          pyLStrip (' ' :: (' ' :: p)) from rfl]
        rw [pyLStrip_cons_ws _ (by decide), pyLStrip_cons_ws _ (by decide)]
      rw [hls, pyLStrip_of_stripped hp] at hc
      exact hph hc
  rw [if_neg hC]
  have hI : (" ".toList).isPrefixOf (("  ".toList) ++ p) = true := by
    rw [show (" ".toList).isPrefixOf (("  ".toList) ++ p) =
      ((' ' :: []).isPrefixOf (' ' :: (' ' :: p))) from rfl]
    simp [List.isPrefixOf]
  rw [if_neg (by simp [hI])]
  rw [if_pos hck]

theorem pstep_asset_line (st : PState) (cg : Dict) (key v : Str)
    (hin : st.in_header = false)
    (hcg : (pflush st).current_game = some cg)
    (hkey : key = ("box_front".toList) ∨ key = ("logo".toList) ∨
      key = ("video".toList)) :
    pstep st (("assets.".toList) ++ key ++ (": ".toList) ++ v) =
      { pflush st with
        current_game := some
          (dset cg (("assets.".toList) ++ key) (.s (pyStrip v))) } := by
  have hA : pyStrip (("assets.".toList) ++ key) = ("assets.".toList) ++ key := by
    rcases hkey with rfl | rfl | rfl <;> decide
  have hne1 : ¬ ("assets.".toList) ++ key = ("game".toList) := by
    rcases hkey with rfl | rfl | rfl <;> decide
  have hne2 : ¬ ("assets.".toList) ++ key = ("file".toList) := by
    rcases hkey with rfl | rfl | rfl <;> decide
  have hml : isMultilineKey (("assets.".toList) ++ key) = false := by
    rcases hkey with rfl | rfl | rfl <;> decide
  have hns : ¬ ("assets.".toList) ++ key = ("sort-by".toList) := by
    rcases hkey with rfl | rfl | rfl <;> decide
  have hh2u : hyphenToUnderscore (("assets.".toList) ++ key) =
      ("assets.".toList) ++ key := by
    rcases hkey with rfl | rfl | rfl <;> decide
  have hnosep : ∀ x ∈ ("assets.".toList) ++ key, ¬ x = ':' := by
    rcases hkey with rfl | rfl | rfl <;> decide
  have hassoc : ("assets.".toList) ++ key ++ (": ".toList) ++ v =
      (("assets.".toList) ++ key) ++ (':' :: (' ' :: v)) := by
    simp [List.append_assoc]
  rw [hassoc]
  unfold pstep
  have hC : ¬ ((pyStrip ((("assets.".toList) ++ key) ++ (':' :: (' ' :: v)))).isEmpty
        = true ∨
      ("#".toList).isPrefixOf
        (pyLStrip ((("assets.".toList) ++ key) ++ (':' :: (' ' :: v)))) = true) := by
    intro hc
    rcases hc with hc | hc
    · rw [show pyStrip ((("assets.".toList) ++ key) ++ (':' :: (' ' :: v))) =
        pyStrip ('a' :: ((("ssets.".toList) ++ key) ++ (':' :: (' ' :: v)))) from rfl,
        List.isEmpty_iff] at hc
      exact pyStrip_cons_ne_nil _ (by decide) hc
    · rw [show pyLStrip ((("assets.".toList) ++ key) ++ (':' :: (' ' :: v))) =
        pyLStrip ('a' :: ((("ssets.".toList) ++ key) ++ (':' :: (' ' :: v)))) from rfl,
        pyLStrip_cons_neg _ (by decide)] at hc
      have hfalse : ("#".toList).isPrefixOf
          ('a' :: ((("ssets.".toList) ++ key) ++ (':' :: (' ' :: v)))) = false :=
        cons_not_prefix_cons _ _ (by decide)
      rw [hfalse] at hc
      cases hc
  rw [if_neg hC]
  have hI : ¬ (" ".toList).isPrefixOf
      ((("assets.".toList) ++ key) ++ (':' :: (' ' :: v))) = true := by
    rw [show (" ".toList).isPrefixOf
        ((("assets.".toList) ++ key) ++ (':' :: (' ' :: v))) =
      ((' ' :: []).isPrefixOf
        ('a' :: ((("ssets.".toList) ++ key) ++ (':' :: (' ' :: v))))) from rfl,
      cons_not_prefix_cons _ _ (by decide)]
    simp
  rw [if_pos hI]
  have hsf : splitFirst ':' ((("assets.".toList) ++ key) ++ (':' :: (' ' :: v))) =
      some ((("assets.".toList) ++ key), ' ' :: v) :=
    @splitFirst_append (("assets.".toList) ++ key) ':' (' ' :: v) hnosep
  rw [hsf]
  dsimp only
  rw [hA]
  rw [if_neg hne1, if_neg hne2]
  rw [hml, if_neg Bool.false_ne_true]
  rw [pflush_in_header, hin, if_neg Bool.false_ne_true]
  rw [hcg]
  dsimp only
  rw [if_neg hns]
  rw [hh2u]
  rw [pyStrip_cons_space]

theorem pstep_files_line (st : PState) :
    pstep st ("files:".toList) =
      { pflush st with current_key := some ("files".toList), buf := [] } := rfl

theorem pstep_blank (st : PState) : pstep st [] = st := rfl

theorem pflush_current_key (st : PState) :
    (pflush st).current_key = Option.none := by
  unfold pflush
  repeat' split
  all_goals rfl

theorem pflush_cg_of_key_none (st : PState) (cg : Dict)
    (hin : st.in_header = false) (hcg : st.current_game = some cg)
    (hck : st.current_key = Option.none) :
    (pflush st).current_game = some cg := by
  unfold pflush
  rw [hin, if_neg Bool.false_ne_true, hcg]
  dsimp only
  rw [hck]
  rfl

/-- The per-path conditions under which a rom survives the `files` filter and
its line survives the parser's comment/blank checks. -/
def cleanPath (p : Str) : Prop :=
  pyStrip p = p ∧ ¬ p = [] ∧
  ¬ ("files:".toList).isPrefixOf (pyLower p) = true ∧
  ¬ ("#".toList).isPrefixOf p = true ∧
  ∀ c ∈ p, ¬ c = '\n' ∧ ¬ c = '\r'

theorem finalize_files_buf (cg : Dict) (rs : List Str)
    (hrs : ∀ p ∈ rs, cleanPath p) :
    finalize_multiline_prop cg (some ("files".toList))
        (rs.map (fun p => ("  ".toList) ++ p)) false =
      dset cg ("roms".toList) (.l (dgetList cg ("roms".toList) ++ rs)) := by
  unfold finalize_multiline_prop
  dsimp only
  rw [if_neg Bool.false_ne_true]
  rw [if_neg (by decide), if_neg (by decide), if_neg (by decide), if_pos rfl]
  have hlines : (rs.map (fun p => ("  ".toList) ++ p)).filterMap (fun ln =>
      if (pyStrip ln).isEmpty = true then Option.none
      else if ("files:".toList).isPrefixOf (pyLower (pyStrip ln)) = true then
        Option.none
      else some (pyStrip ln)) = rs := by
    induction rs with
    | nil => rfl
    | cons p ps ih =>
      obtain ⟨hp1, hp2, hp3, _, _⟩ := hrs p (List.mem_cons_self p ps)
      rw [List.map_cons, List.filterMap_cons]
      have hstrip : pyStrip (("  ".toList) ++ p) = p := by
        rw [show pyStrip (("  ".toList) ++ p) = pyStrip (' ' :: (' ' :: p)) from rfl,
          pyStrip_cons_space, pyStrip_cons_space, hp1]
      rw [hstrip]
      rw [if_neg (by rw [List.isEmpty_iff]; exact hp2), if_neg hp3]
      rw [ih (fun q hq => hrs q (List.mem_cons_of_mem _ hq))]
  rw [hlines]

theorem finalize_game_roms (cg : Dict) (rs : List Str)
    (hf : dget cg ("file".toList) = Option.none)
    (hroms : dgetList cg ("roms".toList) = rs)
    (hrs : ∀ p ∈ rs, cleanPath p) :
    dget (finalize_game cg) ("roms".toList) = some (Val.l rs) := by
  unfold finalize_game
  dsimp only
  rw [hf]
  dsimp only
  rw [hf]
  dsimp only
  rw [hroms]
  have hfilter : rs.filter (fun r =>
      decide (¬ (pyStrip r).isEmpty = true ∧
        ¬ ("files:".toList).isPrefixOf (pyLower (pyStrip r)) = true)) = rs := by
    rw [List.filter_eq_self]
    intro p hp
    obtain ⟨hp1, hp2, hp3, _, _⟩ := hrs p hp
    rw [decide_eq_true_eq]
    rw [hp1]
    exact ⟨by rw [List.isEmpty_iff]; exact hp2, hp3⟩
  rw [hfilter]
  rw [dget_dset_ne cg ("roms".toList) ("file".toList) _ (by decide), hf]
  simp only [ite_self]
  split
  · rw [ensure_default_assets_dget _ _ (by decide),
      dget_dset_ne _ _ _ _ (by decide), dget_dset_self]
  · rw [ensure_default_assets_dget _ _ (by decide), dget_dset_self]

/-- A serialized asset line: `assets.<kind>: <value>` for one of the three
emitted kinds. -/
def assetShape (l : Str) : Prop :=
  ∃ key v, (key = ("box_front".toList) ∨ key = ("logo".toList) ∨
    key = ("video".toList)) ∧
    l = ("assets.".toList) ++ key ++ (": ".toList) ++ v

theorem emit_assets_lines_shape (g : Dict) (l : Str)
    (hl : l ∈ emit_assets_lines g) : assetShape l := by
  have main : ∀ (assets : List (Str × Str)),
      l ∈ ([("box_front".toList), ("logo".toList), ("video".toList)]).filterMap
        (fun key =>
          match assets.find? (fun (kv : Str × Str) => kv.1 = key) with
          | some kv =>
            if ¬ (pyStrip kv.2).isEmpty then
              some (("assets.".toList) ++ key ++ (": ".toList) ++ kv.2)
            else Option.none
          | Option.none => Option.none) →
      assetShape l := by
    intro assets hmem
    rw [List.mem_filterMap] at hmem
    obtain ⟨key, hkmem, hkey⟩ := hmem
    split at hkey
    · split at hkey
      · injection hkey with hkey
        subst hkey
        refine ⟨key, _, ?_, rfl⟩
        simpa using hkmem
      · cases hkey
    · cases hkey
  have gen : ∀ (A B : List (Str × Str)),
      l ∈ (if A.isEmpty = true then ([] : List Str) else
        ([("box_front".toList), ("logo".toList), ("video".toList)]).filterMap
          (fun key =>
            match B.find? (fun (kv : Str × Str) => kv.1 = key) with
            | some kv =>
              if ¬ (pyStrip kv.2).isEmpty then
                some (("assets.".toList) ++ key ++ (": ".toList) ++ kv.2)
              else Option.none
            | Option.none => Option.none)) →
      assetShape l := by
    intro A B h
    split at h
    · simp at h
    · exact main B h
  unfold emit_assets_lines at hl
  split at hl
  · simp at hl
  · dsimp only at hl
    rcases hmb : infer_media_base_from_multifiles g with _ | b <;>
      rw [hmb] at hl <;> dsimp only at hl
    · exact gen _ _ hl
    · exact gen _ _ hl

/-- The state invariant carried across the serialized asset lines: no
finished games yet, in the game section, and the (flushed) game under
construction holds exactly the serialized `roms` and no `file` entry. -/
def J5 (rs : List Str) (st : PState) : Prop :=
  st.games = [] ∧ st.in_header = false ∧
  ∃ cg, (pflush st).current_game = some cg ∧
    dgetList cg ("roms".toList) = rs ∧
    dget cg ("file".toList) = Option.none

theorem J5_asset_step (rs : List Str) (st : PState) (l : Str)
    (hshape : assetShape l) (hJ : J5 rs st) : J5 rs (pstep st l) := by
  obtain ⟨hg0, hin, cg, hcg, hr, hf⟩ := hJ
  obtain ⟨key, v, hkey, rfl⟩ := hshape
  rw [pstep_asset_line st cg key v hin hcg hkey]
  refine ⟨?_, ?_, ?_⟩
  · show (pflush st).games = []
    rw [pflush_games]
    exact hg0
  · show (pflush st).in_header = false
    rw [pflush_in_header]
    exact hin
  · refine ⟨dset cg (("assets.".toList) ++ key) (.s (pyStrip v)), ?_, ?_, ?_⟩
    · apply pflush_cg_of_key_none
      · show (pflush st).in_header = false
        rw [pflush_in_header]
        exact hin
      · rfl
      · show (pflush st).current_key = Option.none
        exact pflush_current_key st
    · unfold dgetList at hr ⊢
      rw [dget_dset_ne _ _ _ _ ?_]
      · exact hr
      · rcases hkey with rfl | rfl | rfl <;> decide
    · rw [dget_dset_ne _ _ _ _ ?_]
      · exact hf
      · rcases hkey with rfl | rfl | rfl <;> decide

theorem J5_foldl_assets (rs : List Str) (L : List Str)
    (hL : ∀ l ∈ L, assetShape l) :
    ∀ st, J5 rs st → J5 rs (L.foldl pstep st) := by
  induction L with
  | nil => exact fun st h => h
  | cons l ls ih =>
    intro st h
    exact ih (fun x hx => hL x (List.mem_cons_of_mem _ hx)) _
      (J5_asset_step rs st l (hL l (List.mem_cons_self l ls)) h)

theorem foldl_contin_lines (rs : List Str) (hrs : ∀ p ∈ rs, cleanPath p) :
    ∀ st : PState, st.current_key.isSome = true →
      ((rs.map (fun p => ("  ".toList) ++ p)).foldl pstep st) =
        { st with buf := st.buf ++ rs.map (fun p => ("  ".toList) ++ p) } := by
  induction rs with
  | nil =>
    intro st _
    dsimp only [List.map_nil, List.foldl_nil]
    rw [List.append_nil]
  | cons p ps ih =>
    intro st hck
    obtain ⟨hp1, hp2, _, hp4, _⟩ := hrs p (List.mem_cons_self p ps)
    rw [List.map_cons, List.foldl_cons]
    rw [pstep_contin_line st p hck hp1 hp2 hp4]
    rw [ih (fun q hq => hrs q (List.mem_cons_of_mem _ hq))
      { st with buf := st.buf ++ [("  ".toList) ++ p] } hck]
    rw [List.append_assoc]
    rfl

theorem parse_games_of_J5 (rs : List Str) (L : List Str)
    (hrs : ∀ p ∈ rs, cleanPath p)
    (hJ : J5 rs (L.foldl pstep ⟨[], [], Option.none, true, Option.none, []⟩)) :
    (parse_pegasus_metadata L).2.length = 1 ∧
    dget ((parse_pegasus_metadata L).2.headD []) ("roms".toList) =
      some (Val.l rs) := by
  obtain ⟨hg0, hin, cg, hcg, hr, hf⟩ := hJ
  unfold parse_pegasus_metadata
  dsimp only
  rw [hcg]
  dsimp only
  rw [pflush_games, hg0]
  constructor
  · rfl
  · rw [List.nil_append, List.headD_cons]
    exact finalize_game_roms cg rs hf hr hrs

/-- The representative serialized game of C5: a title and a `roms` list. -/
def c5Game (t : Str) (rs : List Str) : Dict :=
  [(("game".toList), Val.s t), (("roms".toList), Val.l rs)]

theorem write_game_c5 (t : Str) (rs : List Str) (htne : ¬ t = []) :
    write_game (c5Game t rs) =
      [("game: ".toList) ++ t] ++
      (if ¬ rs.isEmpty = true then
        if rs.length = 1 then [("file: ".toList) ++ rs.headD []]
        else ("files:".toList) :: rs.map (fun p => ("  ".toList) ++ p)
       else []) ++
      emit_assets_lines (c5Game t rs) ++ [[]] := by
  unfold write_game
  dsimp only
  have hgame : dget (c5Game t rs) ("game".toList) = some (Val.s t) := rfl
  have htr : truthy (dget (c5Game t rs) ("game".toList)) = true := by
    rw [hgame]
    unfold truthy
    simp [List.isEmpty_iff, htne]
  rw [if_pos htr, if_neg (fun hc => hc htr)]
  rw [hgame]
  rw [show fstr (some (Val.s t)) = t from rfl]
  rw [show dgetSeq (c5Game t rs) ("roms".toList) = rs from rfl]
  rw [show truthy (dget (c5Game t rs) ("sort_by".toList)) = false from rfl,
    if_neg Bool.false_ne_true]
  rw [show truthy (dget (c5Game t rs) ("developer".toList)) = false from rfl,
    if_neg Bool.false_ne_true]
  rw [show dget (c5Game t rs) ("description".toList) = Option.none from rfl]
  rw [show emit_launch_block (c5Game t rs) = [] from rfl]
  simp only [List.append_nil, List.nil_append]

theorem emit_assets_c5_empty (t : Str) (rs : List Str) (hlen : rs.length ≤ 1) :
    emit_assets_lines (c5Game t rs) = [] := by
  unfold emit_assets_lines
  have hmd : is_multi_disc (c5Game t rs) = false := by
    unfold is_multi_disc
    rw [show dget (c5Game t rs) ("roms".toList) = some (Val.l rs) from rfl]
    rw [show dget (c5Game t rs) ("files".toList) = Option.none from rfl]
    simp only [Bool.or_false]
    rw [decide_eq_false]
    omega
  rw [hmd]
  rw [if_pos Bool.false_ne_true]

theorem c5_roundtrip (t : Str) (rs : List Str)
    (ht : pyStrip t = t) (htne : ¬ t = [])
    (hrs : ∀ p ∈ rs, cleanPath p) :
    (parse_pegasus_metadata (write_game (c5Game t rs))).2.length = 1 ∧
    dget ((parse_pegasus_metadata (write_game (c5Game t rs))).2.headD [])
      ("roms".toList) = some (Val.l rs) := by
  refine parse_games_of_J5 rs _ hrs ?_
  have hstG : pstep ⟨[], [], Option.none, true, Option.none, []⟩
      (("game: ".toList) ++ t) =
      ⟨[], [], some [(("game".toList), Val.s t)], false, Option.none, []⟩ := by
    rw [pstep_game_line _ t ht]
    rfl
  rcases rs with _ | ⟨p, rs2⟩
  · -- no rom at all
    have hw : write_game (c5Game t []) = [("game: ".toList) ++ t, []] := by
      rw [write_game_c5 t [] htne, emit_assets_c5_empty t [] (by simp)]
      simp
    rw [hw]
    simp only [List.foldl_cons, List.foldl_nil]
    rw [hstG, pstep_blank]
    refine ⟨rfl, rfl, [(("game".toList), Val.s t)], ?_, rfl, rfl⟩
    exact pflush_cg_of_key_none _ _ rfl rfl rfl
  rcases rs2 with _ | ⟨q, rest⟩
  · -- exactly one rom: the single-line file: form
    have hw : write_game (c5Game t [p]) =
        [("game: ".toList) ++ t, ("file: ".toList) ++ p, []] := by
      rw [write_game_c5 t [p] htne, emit_assets_c5_empty t [p] (by simp)]
      simp
    rw [hw]
    simp only [List.foldl_cons, List.foldl_nil]
    rw [hstG]
    obtain ⟨hp1, _, _, _, _⟩ := hrs p (List.mem_cons_self p [])
    rw [pstep_file_line ⟨[], [], some [(("game".toList), Val.s t)], false,
      Option.none, []⟩ [(("game".toList), Val.s t)] p rfl rfl hp1]
    rw [pstep_blank]
    refine ⟨rfl, rfl, c5Game t [p], ?_, ?_, rfl⟩
    · exact pflush_cg_of_key_none _ _ rfl rfl rfl
    · rfl
  · -- two or more roms: the files: block form
    have hw : write_game (c5Game t (p :: q :: rest)) =
        (("game: ".toList) ++ t) :: ("files:".toList) ::
          (((p :: q :: rest).map (fun r => ("  ".toList) ++ r)) ++
            (emit_assets_lines (c5Game t (p :: q :: rest)) ++ [[]])) := by
      rw [write_game_c5 t (p :: q :: rest) htne]
      rw [if_pos (by simp), if_neg (by simp)]
      simp [List.append_assoc]
    rw [hw]
    simp only [List.foldl_cons]
    rw [hstG]
    have hstFi : pstep ⟨[], [], some [(("game".toList), Val.s t)], false,
        Option.none, []⟩ ("files:".toList) =
        ⟨[], [], some [(("game".toList), Val.s t)], false,
          some ("files".toList), []⟩ := rfl
    rw [hstFi]
    rw [List.foldl_append]
    rw [foldl_contin_lines (p :: q :: rest) hrs
      ⟨[], [], some [(("game".toList), Val.s t)], false,
        some ("files".toList), []⟩ rfl]
    rw [List.foldl_append]
    have hJC : J5 (p :: q :: rest)
        ⟨[], [], some [(("game".toList), Val.s t)], false,
          some ("files".toList),
          [] ++ (p :: q :: rest).map (fun r => ("  ".toList) ++ r)⟩ := by
      refine ⟨rfl, rfl, dset [(("game".toList), Val.s t)] ("roms".toList)
        (.l (dgetList [(("game".toList), Val.s t)] ("roms".toList) ++
          (p :: q :: rest))), ?_, ?_, ?_⟩
      · show some (finalize_multiline_prop [(("game".toList), Val.s t)]
          (some ("files".toList))
          ((p :: q :: rest).map (fun r => ("  ".toList) ++ r)) false) = _
        rw [finalize_files_buf _ _ hrs]
      · unfold dgetList
        rw [dget_dset_self]
        rfl
      · rw [dget_dset_ne _ _ _ _ (by decide)]
        rfl
    have hJA := J5_foldl_assets (p :: q :: rest)
      (emit_assets_lines (c5Game t (p :: q :: rest)))
      (fun l hl => emit_assets_lines_shape _ l hl) _ hJC
    simp only [List.foldl_cons, List.foldl_nil]
    rw [pstep_blank]
    exact hJA

instance cleanPathDec (p : Str) : Decidable (cleanPath p) := by
  unfold cleanPath
  infer_instance

/-- C5 (amended): for a serialized game holding a title and a `roms` list,
the writer emits the single-line `file: <path>` form when `roms` has exactly
one entry and the `files:` block form (one two-space-indented line per path,
followed by the multi-disc asset lines) when it has two or more; and
re-parsing the emitted block yields exactly one game whose `roms` equals the
original sequence, order preserved, provided the title and every path are
clean (already stripped, non-empty, newline-free, not `#`- or
`files:`-prefixed). The cleanliness condition is necessary: the parser can
itself produce a rom path starting with `#` from a `file:` line, and such an
entry is lost on the round trip (see the C5 counterexample). -/
theorem C5_rom_forms_roundtrip (t : Str) (rs : List Str)
    (ht : pyStrip t = t) (htne : ¬ t = [])
    (htnl : ∀ c ∈ t, ¬ c = '\n' ∧ ¬ c = '\r')
    (hrs : ∀ p ∈ rs, cleanPath p) :
    (rs.length = 1 →
      write_game (c5Game t rs) =
        [("game: ".toList) ++ t, ("file: ".toList) ++ rs.headD [], []]) ∧
    (2 ≤ rs.length →
      write_game (c5Game t rs) =
        [("game: ".toList) ++ t, ("files:".toList)] ++
          rs.map (fun p => ("  ".toList) ++ p) ++
          emit_assets_lines (c5Game t rs) ++ [[]]) ∧
    ((parse_pegasus_metadata (write_game (c5Game t rs))).2.length = 1 ∧
     dget ((parse_pegasus_metadata (write_game (c5Game t rs))).2.headD [])
       ("roms".toList) = some (Val.l rs)) := by
  refine ⟨?_, ?_, c5_roundtrip t rs ht htne hrs⟩
  · intro h1
    rcases rs with _ | ⟨p, rs2⟩
    · simp at h1
    rcases rs2 with _ | ⟨q, rest⟩
    · rw [write_game_c5 t [p] htne, emit_assets_c5_empty t [p] (by simp)]
      simp
    · simp [List.length_cons] at h1
  · intro h2
    rcases rs with _ | ⟨p, rs2⟩
    · simp at h2
    rcases rs2 with _ | ⟨q, rest⟩
    · simp [List.length_cons] at h2
    · rw [write_game_c5 t (p :: q :: rest) htne]
      rw [if_pos (by simp), if_neg (by simp)]
      simp [List.append_assoc]

theorem C5_witness :
    (parse_pegasus_metadata (write_game (c5Game ("A".toList)
      [("a.chd".toList), ("b.chd".toList)]))).2.length = 1 ∧
    dget ((parse_pegasus_metadata (write_game (c5Game ("A".toList)
      [("a.chd".toList), ("b.chd".toList)]))).2.headD []) ("roms".toList) =
      some (Val.l [("a.chd".toList), ("b.chd".toList)]) :=
  (C5_rom_forms_roundtrip ("A".toList) [("a.chd".toList), ("b.chd".toList)]
    (by decide) (by decide) (by decide) (by decide)).2.2

/-- The keys `parse_pegasus_metadata` treats specially at top level: `game`,
`file`, the multi-line keys, and `sort-by`. Every other key falls through to
the fallback branch `target[key.replace("-", "_")] = value`. -/
def specialKeys : List Str :=
  [("game".toList), ("file".toList), ("launch".toList),
   ("description".toList), ("ignore-files".toList), ("extension".toList),
   ("extensions".toList), ("files".toList), ("sort-by".toList)]

theorem head_not_ws_of_stripped {c : Char} {k2 : Str}
    (hk : pyStrip (c :: k2) = c :: k2) : pyIsWs c = false := by
  by_contra hc
  rw [Bool.not_eq_false] at hc
  have h1 : pyLStrip (c :: k2) = c :: k2 := pyLStrip_of_stripped hk
  rw [pyLStrip_cons_ws k2 hc] at h1
  have h2 : (pyLStrip k2).length ≤ k2.length := by
    unfold pyLStrip
    exact (List.dropWhile_suffix _).sublist.length_le
  rw [h1, List.length_cons] at h2
  omega

/-- C8 (amended): a top-level key line `k: v` whose stripped key `k` is not
one the parser treats specially (not `game`, `file`, `sort-by`, nor a
multi-line key) never fails the parse; instead the key is stored in the
current record — the header while in the header section, the game under
construction otherwise — under its hyphen-to-underscore-normalized name with
the stripped value, rather than the line being ignored. Stated for every
parser state and every such key line (the key already stripped, non-empty,
colon-free, and not opening a comment). -/
theorem C8_unrecognized_stored (st : PState) (k v : Str)
    (hk : pyStrip k = k) (hkne : ¬ k = [])
    (hknc : ∀ c ∈ k, ¬ c = ':')
    (hkh : ¬ ("#".toList).isPrefixOf k = true)
    (hns : ¬ k ∈ specialKeys) :
    pstep st (k ++ ':' :: v) =
      if (pflush st).in_header = true then
        { pflush st with header := dset (pflush st).header (hyphenToUnderscore k) (Val.s (pyStrip v)) }
      else
        match (pflush st).current_game with
        | some cg =>
          { pflush st with current_game := some (dset cg (hyphenToUnderscore k) (Val.s (pyStrip v))) }
        | Option.none => pflush st := by
  rcases k with _ | ⟨c, k2⟩
  · exact absurd rfl hkne
  have hcws : pyIsWs c = false := head_not_ws_of_stripped hk
  have hchash : ¬ c = '#' := by
    intro h
    subst h
    exact hkh (by simp [List.isPrefixOf])
  have hcsp : ¬ c = ' ' := by
    intro h
    subst h
    exact absurd hcws (by decide)
  have hmem : ∀ s ∈ specialKeys, ¬ (c :: k2) = s := fun s hs h => hns (h ▸ hs)
  unfold pstep
  have hC : ¬ ((pyStrip ((c :: k2) ++ ':' :: v)).isEmpty = true ∨
      ("#".toList).isPrefixOf (pyLStrip ((c :: k2) ++ ':' :: v)) = true) := by
    intro hcon
    rcases hcon with hcon | hcon
    · have hne : ¬ pyStrip (c :: (k2 ++ ':' :: v)) = [] :=
        pyStrip_cons_ne_nil _ hcws
      rw [List.isEmpty_iff] at hcon
      exact hne hcon
    · have hl : pyLStrip (c :: (k2 ++ ':' :: v)) = c :: (k2 ++ ':' :: v) :=
        pyLStrip_cons_neg _ hcws
      rw [show pyLStrip ((c :: k2) ++ ':' :: v) =
        pyLStrip (c :: (k2 ++ ':' :: v)) from rfl, hl] at hcon
      have hfalse : ("#".toList).isPrefixOf (c :: (k2 ++ ':' :: v)) = false :=
        cons_not_prefix_cons _ _ (fun h => hchash h.symm)
      rw [hfalse] at hcon
      cases hcon
  rw [if_neg hC]
  have hI : ¬ (" ".toList).isPrefixOf ((c :: k2) ++ ':' :: v) = true := by
    rw [show (" ".toList).isPrefixOf ((c :: k2) ++ ':' :: v) =
      (' ' :: []).isPrefixOf (c :: (k2 ++ ':' :: v)) from rfl]
    rw [cons_not_prefix_cons _ _ (fun h => hcsp h.symm)]
    simp
  rw [if_pos hI]
  have hsf : splitFirst ':' ((c :: k2) ++ ':' :: v) = some ((c :: k2), v) :=
    @splitFirst_append (c :: k2) ':' v hknc
  rw [hsf]
  dsimp only
  rw [hk]
  have hng : ¬ (c :: k2) = ("game".toList) := hmem _ (by decide)
  have hnf : ¬ (c :: k2) = ("file".toList) := hmem _ (by decide)
  have hnsb : ¬ (c :: k2) = ("sort-by".toList) := hmem _ (by decide)
  have hml : isMultilineKey (c :: k2) = false := by
    unfold isMultilineKey
    apply decide_eq_false
    intro hcon
    rcases hcon with h | h | h | h | h | h <;> exact hns (by rw [h]; decide)
  rw [if_neg hng, if_neg hnf, hml, if_neg Bool.false_ne_true]
  by_cases hin : (pflush st).in_header = true
  · rw [if_pos hin, if_pos hin, if_neg hnsb]
  · rw [if_neg hin, if_neg hin]
    rcases hcg : (pflush st).current_game with _ | cg
    · rfl
    · dsimp only
      rw [if_neg hnsb]

theorem C8_witness :
    pstep ⟨[(("collection".toList), Val.s ("X".toList))], [], Option.none,
        true, Option.none, []⟩ (("foo-bar".toList) ++ ':' :: (" baz".toList)) =
      ⟨[(("collection".toList), Val.s ("X".toList)),
        (("foo_bar".toList), Val.s ("baz".toList))], [], Option.none,
        true, Option.none, []⟩ :=
  (C8_unrecognized_stored ⟨[(("collection".toList), Val.s ("X".toList))], [],
    Option.none, true, Option.none, []⟩ ("foo-bar".toList) (" baz".toList)
    (by decide) (by decide) (by decide) (by decide) (by decide)).trans rfl

/-- C5 counterexample: the claim's round-trip half fails on a
parser-producible game. From the lines `game: A` / `file: #a` / `file: b.chd`
the parser itself builds a game with `roms = ["#a", "b.chd"]` (a `#` in the
value position of a `file:` line survives, since the comment check applies to
the whole physical line). Dumping that game uses the multi-entry `files:`
block, whose indented line `  #a` the re-parse then skips as a comment, so
the round-tripped `roms` is `["b.chd"]` — not the same sequence, and not
set-equal even under the closure normalization. -/
theorem C5_counterexample :
    dget ((parse_pegasus_metadata [("game: A".toList), ("file: #a".toList),
        ("file: b.chd".toList)]).2.headD []) ("roms".toList) =
      some (Val.l [("#a".toList), ("b.chd".toList)]) ∧
    write_game (c5Game ("A".toList) [("#a".toList), ("b.chd".toList)]) =
      [("game: A".toList), ("files:".toList), ("  #a".toList),
       ("  b.chd".toList), []] ∧
    dget ((parse_pegasus_metadata (write_game (c5Game ("A".toList)
        [("#a".toList), ("b.chd".toList)]))).2.headD []) ("roms".toList) =
      some (Val.l [("b.chd".toList)]) := by
  refine ⟨by decide, by decide, by decide⟩
